import Mathlib

/-!
Shallow embedding of the Connect 4 game-state engine from `src/js/connect4.js`
(the canonical private-field `Connect4` class: `makeMove`, `undoMove`, `reset`,
`isValidMove`, `isColumnFull`, `getLowestEmptyRow`, `#checkWin`,
`#checkDirection`, `#isValidCell`, `#getWinningPositions`), together with the
spec-level predicates needed to state and settle the claims about it.

Boards are lists of rows of `Nat` cell values (0 empty, 1 / 2 player ids), as
in the JS array-of-arrays representation.  A JS read `board[r][c]` is modelled
by `jsCell`, returning `none` where JS would produce `undefined` so that the
`=== 0` / `=== player` comparisons of the source keep their exact behaviour at
out-of-bounds indices.  The `while` loops of `#checkDirection` and
`#getWinningPositions` are modelled with a fuel argument of `rows + columns`,
which exceeds the number of board cells on any line and hence never truncates
the scan.  Mutating methods become state-passing functions returning the JS
return value paired with the successor state.
-/

namespace Connect4

/-- Board cell coordinates, as produced by `#getWinningPositions`. -/
structure Pos where
  row : Int
  col : Int
deriving DecidableEq, Repr

/-- The `type` tag of a move result record. -/
inductive MoveType where
  | move
  | win
  | draw
deriving DecidableEq, Repr

/-- A move record as pushed on `#moveHistory`; `winningPositions` is `[]`
except on the record of a winning move, mirroring the JS object that only
gains a `winningPositions` field when the move wins. -/
structure MoveRec where
  row : Int
  column : Int
  player : Nat
  type : MoveType
  winningPositions : List Pos
deriving DecidableEq, Repr

/-- A board: list of rows, each a list of cell values. -/
abbrev Board := List (List Nat)

/-- The private state of a `Connect4` instance. -/
structure GameState where
  rows : Nat
  columns : Nat
  board : Board
  moveHistory : List MoveRec
  winningPositions : List Pos
  gameOver : Bool
  isDrawn : Bool
  winner : Option Nat
deriving DecidableEq, Repr

/-- JS read `board[r][c]`: `some v` for an in-bounds cell, `none` where JS
would yield `undefined` (negative or too-large index). -/
def jsCell (b : Board) (r c : Int) : Option Nat :=
  if 0 ≤ r ∧ 0 ≤ c then (b.get? r.toNat).bind (fun row => row.get? c.toNat) else none

/-- JS write `board[r][c] = v` at an in-bounds position. -/
def setCell (b : Board) (r c : Int) (v : Nat) : Board :=
  b.set r.toNat ((b.getD r.toNat []).set c.toNat v)

/-- `Array(rows).fill().map(() => Array(columns).fill(0))`. -/
def initBoard (rows columns : Nat) : Board :=
  List.replicate rows (List.replicate columns 0)

/-- The state built by the constructor / `reset()`. -/
def initState (rows columns : Nat) : GameState :=
  ⟨rows, columns, initBoard rows columns, [], [], false, false, none⟩

/-- `reset()`: dimensions are kept, everything else reinitialised. -/
def reset (s : GameState) : GameState :=
  initState s.rows s.columns

/-- `getCurrentPlayer()`: `moveHistory.length % 2 + 1`. -/
def getCurrentPlayer (s : GameState) : Nat :=
  s.moveHistory.length % 2 + 1

/-- `isValidMove(column)`: `column >= 0 && column < columns && board[0][column] === 0`. -/
def isValidMove (s : GameState) (column : Int) : Bool :=
  decide (0 ≤ column) && decide (column < (s.columns : Int)) &&
    decide (jsCell s.board 0 column = some 0)

/-- `isColumnFull(column)`: `board[0][column] !== 0`. -/
def isColumnFull (s : GameState) (column : Int) : Bool :=
  !(decide (jsCell s.board 0 column = some 0))

/-- The `for (let row = rows - 1; row >= 0; row--)` loop of
`getLowestEmptyRow`: `n` is the number of rows still to inspect, so the next
row examined is `n - 1`. -/
def lowestEmptyAux (b : Board) (column : Int) : Nat → Int
  | 0 => -1
  | n + 1 => if jsCell b (n : Int) column = some 0 then (n : Int) else lowestEmptyAux b column n

/-- `getLowestEmptyRow(column)`: scan from the last row upward, `-1` if full. -/
def getLowestEmptyRow (s : GameState) (column : Int) : Int :=
  lowestEmptyAux s.board column s.rows

/-- `#isValidCell(row, col)`. -/
def isValidCell (rows columns : Nat) (r c : Int) : Bool :=
  decide (0 ≤ r) && decide (r < (rows : Int)) && decide (0 ≤ c) && decide (c < (columns : Int))

/-- One `while (isValidCell(r, c) && board[r][c] === player)` loop of
`#checkDirection`, started one step beyond `(r, c)`: the number of consecutive
matching cells at `(r+dr, c+dc)`, `(r+2dr, c+2dc)`, …  `p` is the saved value
of `board[row][col]` (an `Option` since JS compares the raw read). -/
def runFrom (rows columns : Nat) (b : Board) (p : Option Nat)
    (r c dr dc : Int) : Nat → Nat
  | 0 => 0
  | fuel + 1 =>
    if isValidCell rows columns (r + dr) (c + dc) && decide (jsCell b (r + dr) (c + dc) = p)
    then runFrom rows columns b p (r + dr) (c + dc) dr dc fuel + 1
    else 0

/-- The matching loop of `#getWinningPositions`: the positions pushed while
scanning from one step beyond `(r, c)` in direction `(dr, dc)`. -/
def collectFrom (rows columns : Nat) (b : Board) (p : Option Nat)
    (r c dr dc : Int) : Nat → List Pos
  | 0 => []
  | fuel + 1 =>
    if isValidCell rows columns (r + dr) (c + dc) && decide (jsCell b (r + dr) (c + dc) = p)
    then ⟨r + dr, c + dc⟩ :: collectFrom rows columns b p (r + dr) (c + dc) dr dc fuel
    else []

/-- `#checkDirection(row, col, dr, dc)` fused with the `#winningPositions`
write it performs: `some line` when `count >= 4` (where `line` is what
`#getWinningPositions(row, col, dr, dc)` builds: the placed cell, then the
cells found in the positive direction, then those in the negative direction),
`none` otherwise. -/
def checkDirection (rows columns : Nat) (b : Board) (row col dr dc : Int) : Option (List Pos) :=
  let p := jsCell b row col
  let fuel := rows + columns
  let fwd := runFrom rows columns b p row col dr dc fuel
  let bwd := runFrom rows columns b p row col (-dr) (-dc) fuel
  if 4 ≤ 1 + fwd + bwd then
    some (⟨row, col⟩ :: (collectFrom rows columns b p row col dr dc fuel ++
      collectFrom rows columns b p row col (-dr) (-dc) fuel))
  else
    none

/-- The fixed direction list of `#checkWin`: horizontal, vertical, diagonal
down-right, diagonal down-left. -/
def directions : List (Int × Int) :=
  [(0, 1), (1, 0), (1, 1), (1, -1)]

/-- `#checkWin(row, col)`: `directions.some(...)`, short-circuiting at the
first direction whose count reaches 4; returns that direction's winning line. -/
def checkWin (rows columns : Nat) (b : Board) (row col : Int) : Option (List Pos) :=
  directions.findSome? (fun d => checkDirection rows columns b row col d.1 d.2)

/-- `makeMove(column)`: the JS return value paired with the successor state.
Rejections return `(none, s)` (the method returns `null` leaving the instance
untouched). -/
def makeMove (s : GameState) (column : Int) : Option MoveRec × GameState :=
  if s.gameOver || !(isValidMove s column) then (none, s)
  else
    let row := getLowestEmptyRow s column
    if row = -1 then (none, s)
    else
      let player := getCurrentPlayer s
      let s1 : GameState := { s with board := setCell s.board row column player }
      match checkWin s.rows s.columns s1.board row column with
      | some ps =>
        let m : MoveRec := ⟨row, column, player, MoveType.win, ps⟩
        (some m, { s1 with moveHistory := s.moveHistory ++ [m],
                           gameOver := true, winner := some player,
                           winningPositions := ps })
      | none =>
        if s.moveHistory.length + 1 = s.rows * s.columns then
          let m : MoveRec := ⟨row, column, player, MoveType.draw, []⟩
          (some m, { s1 with moveHistory := s.moveHistory ++ [m],
                             gameOver := true, isDrawn := true })
        else
          let m : MoveRec := ⟨row, column, player, MoveType.move, []⟩
          (some m, { s1 with moveHistory := s.moveHistory ++ [m] })

/-- `getLastMove()` (value content; the JS spread copy has the same fields). -/
def getLastMove (s : GameState) : Option MoveRec :=
  s.moveHistory.getLast?

/-- `undoMove()`: pop the last record, clear its cell, reset all game-over
state; `(none, s)` when the history is empty. -/
def undoMove (s : GameState) : Option MoveRec × GameState :=
  match s.moveHistory.getLast? with
  | none => (none, s)
  | some m =>
    (some m, { s with board := setCell s.board m.row m.column 0,
                      moveHistory := s.moveHistory.dropLast,
                      gameOver := false, isDrawn := false,
                      winningPositions := [], winner := none })

/-- The derived tri-state `GameStatus` of the spec, read off the engine flags
the way the controller does (`winner`, then `isDraw`, else in progress). -/
inductive GameStatus where
  | inProgress
  | won (p : Nat)
  | drawn
deriving DecidableEq, Repr

/-- Status projection of an engine state. -/
def statusOf (s : GameState) : GameStatus :=
  match s.winner with
  | some p => GameStatus.won p
  | none => if s.isDrawn then GameStatus.drawn else GameStatus.inProgress

/-- Fold a list of column choices through `makeMove`, keeping the state. -/
def playMoves (s : GameState) (cs : List Int) : GameState :=
  cs.foldl (fun t c => (makeMove t c).2) s

/-! ### Spec-level predicates and the replay model -/

/-- Spec predicate: along axis `(dr, dc)` there is a contiguous run of at
least 4 in-bounds cells carrying player `p`, and the run passes through
`(row, col)` (which is its `k`-th cell). -/
def hasRunThrough (rows columns : Nat) (b : Board) (p : Nat)
    (row col dr dc : Int) : Prop :=
  ∃ len k : Nat, 4 ≤ len ∧ k < len ∧
    ∀ i : Nat, i < len →
      isValidCell rows columns (row + ((i : Int) - (k : Int)) * dr)
          (col + ((i : Int) - (k : Int)) * dc) = true ∧
      jsCell b (row + ((i : Int) - (k : Int)) * dr)
          (col + ((i : Int) - (k : Int)) * dc) = some p

/-- A window of exactly 4 contiguous matching cells through `(row, col)`:
the normal form `hasRunThrough` is reduced to. -/
def hasWin4 (rows columns : Nat) (b : Board) (p : Nat)
    (row col dr dc : Int) : Prop :=
  ∃ k : Nat, k ≤ 3 ∧
    ∀ i : Nat, i ≤ 3 →
      isValidCell rows columns (row + ((i : Int) - (k : Int)) * dr)
          (col + ((i : Int) - (k : Int)) * dc) = true ∧
      jsCell b (row + ((i : Int) - (k : Int)) * dr)
          (col + ((i : Int) - (k : Int)) * dc) = some p

/-- The cells one step, two steps, …, `n` steps away from `(r, c)` in
direction `(dr, dc)`, in scan order. -/
def posSeq (r c dr dc : Int) : Nat → List Pos
  | 0 => []
  | n + 1 => ⟨r + dr, c + dc⟩ :: posSeq (r + dr) (c + dc) dr dc n

/-- Replay one logged move record onto a board. -/
def applyRec (b : Board) (m : MoveRec) : Board :=
  setCell b m.row m.column m.player

/-- Replay a move log, in order, onto an all-empty grid. -/
def replayAll (rows columns : Nat) (log : List MoveRec) : Board :=
  log.foldl applyRec (initBoard rows columns)

/-- Legality of one logged record against the board it was played on as move
number `n`: the column is in range, the row is what the bottom-up scan
returns (and the column was not full), and the player is the one whose turn
it was. -/
def stepLegal (rows columns : Nat) (b : Board) (n : Nat) (m : MoveRec) : Prop :=
  0 ≤ m.column ∧ m.column < (columns : Int) ∧
  m.row = lowestEmptyAux b m.column rows ∧ m.row ≠ -1 ∧
  m.player = n % 2 + 1

/-- The whole log is a legal play sequence from board `b`, the first entry
being move number `n`. -/
def replayOK (rows columns : Nat) : Board → Nat → List MoveRec → Prop
  | _, _, [] => True
  | b, n, m :: rest =>
    stepLegal rows columns b n m ∧ replayOK rows columns (applyRec b m) (n + 1) rest

/-- Rectangular `rows × columns` board. -/
def shapeOK (rows columns : Nat) (b : Board) : Prop :=
  b.length = rows ∧ ∀ row ∈ b, row.length = columns

/-- Gravity shape of a board: every cell directly below an empty cell is
empty, i.e. no token floats. -/
def emptyUp (b : Board) : Prop :=
  ∀ r c : Int, 0 ≤ r → jsCell b (r + 1) c = some 0 → jsCell b r c = some 0

/-- The states an engine instance can be in: every sequence of constructor,
`makeMove`, `undoMove` and `reset` calls (the fields are private, so these
are all states of a live instance).  Dimensions are positive per spec §4.1. -/
inductive Reachable : GameState → Prop
  | init (rows columns : Nat) (hr : 1 ≤ rows) (hc : 1 ≤ columns) :
      Reachable (initState rows columns)
  | move {s s' : GameState} {c : Int} {m : MoveRec} :
      Reachable s → makeMove s c = (some m, s') → Reachable s'
  | undo {s s' : GameState} {m : MoveRec} :
      Reachable s → undoMove s = (some m, s') → Reachable s'
  | reset {s : GameState} : Reachable s → Reachable (reset s)

/-- The engine invariant: positive dimensions, a legal move log, a grid that
is exactly the replay of the log, and game-over bookkeeping flags that are
clean while the game is in progress and meaningful once it is over. -/
def Inv (s : GameState) : Prop :=
  1 ≤ s.rows ∧ 1 ≤ s.columns ∧
  replayOK s.rows s.columns (initBoard s.rows s.columns) 0 s.moveHistory ∧
  s.board = replayAll s.rows s.columns s.moveHistory ∧
  (s.gameOver = false → s.winner = none ∧ s.isDrawn = false ∧ s.winningPositions = []) ∧
  (s.gameOver = true → s.winner ≠ none ∨ s.isDrawn = true)

/-- Modelled from the spec: the engine method `getBoardAtMove` is absent from
`src/` — only its call site (`controller.js`, `#handleHistoryItemHover`)
survives there.  Per spec §4.1 it uses the replay logic of `resetToMove`
(rebuild the grid from scratch by replaying `moves[0..index]`), rejects an
out-of-range index, and does not truncate the log or mutate any engine state;
the unchanged state is returned alongside the snapshot to make the absence of
mutation explicit. -/
def getBoardAtMove (s : GameState) (index : Int) : Option Board × GameState :=
  (if 0 ≤ index ∧ index < (s.moveHistory.length : Int) then
     some (replayAll s.rows s.columns (s.moveHistory.take (index.toNat + 1)))
   else none, s)

/-! ### Basic board lemmas -/

theorem get?_some_lt {α : Type _} {l : List α} {n : Nat} {a : α}
    (h : l.get? n = some a) : n < l.length := by
  rcases List.get?_eq_some.mp h with ⟨h1, _⟩
  exact h1

theorem list_set_self {α : Type _} {a : α} :
    ∀ (l : List α) (i : Nat), l.get? i = some a → l.set i a = l := by
  intro l
  induction l with
  | nil => intro i h; simp at h
  | cons x xs ih =>
    intro i h
    cases i with
    | zero =>
      simp only [List.get?] at h
      cases h
      simp
    | succ n =>
      simp only [List.get?] at h
      simp [List.set, ih n h]

theorem jsCell_elim {b : Board} {r c : Int} {v : Nat} (h : jsCell b r c = some v) :
    0 ≤ r ∧ 0 ≤ c ∧ ∃ row, b.get? r.toNat = some row ∧ row.get? c.toNat = some v := by
  unfold jsCell at h
  split at h
  case isTrue hp =>
    rcases Option.bind_eq_some.mp h with ⟨row, hrow, hcv⟩
    exact ⟨hp.1, hp.2, row, hrow, hcv⟩
  case isFalse => simp at h

theorem jsCell_intro {b : Board} {r c : Int} {v : Nat} {row : List Nat}
    (hr : 0 ≤ r) (hc : 0 ≤ c) (hrow : b.get? r.toNat = some row)
    (hv : row.get? c.toNat = some v) : jsCell b r c = some v := by
  unfold jsCell
  rw [if_pos ⟨hr, hc⟩, hrow, Option.some_bind]
  exact hv

theorem jsCell_neg {b : Board} {r c : Int} (h : ¬(0 ≤ r ∧ 0 ≤ c)) :
    jsCell b r c = none := by
  unfold jsCell
  exact if_neg h

theorem getD_eq_of_get? {b : Board} {i : Nat} {row : List Nat}
    (h : b.get? i = some row) : b.getD i [] = row := by
  rw [List.getD_eq_getElem?_getD, ← List.get?_eq_getElem?, h]
  rfl

theorem jsCell_total {rows columns : Nat} {b : Board} (hs : shapeOK rows columns b)
    {r c : Int} (hr0 : 0 ≤ r) (hr1 : r < (rows : Int)) (hc0 : 0 ≤ c)
    (hc1 : c < (columns : Int)) : ∃ v, jsCell b r c = some v := by
  obtain ⟨hlen, hrows⟩ := hs
  have hrn : r.toNat < b.length := by omega
  have hrow : b.get? r.toNat = some (b.get ⟨r.toNat, hrn⟩) :=
    List.get?_eq_some.mpr ⟨hrn, rfl⟩
  have hmem : b.get ⟨r.toNat, hrn⟩ ∈ b := List.get_mem b r.toNat hrn
  have hlenr : (b.get ⟨r.toNat, hrn⟩).length = columns := hrows _ hmem
  have hcn : c.toNat < (b.get ⟨r.toNat, hrn⟩).length := by omega
  exact ⟨_, jsCell_intro hr0 hc0 hrow (List.get?_eq_some.mpr ⟨hcn, rfl⟩)⟩

theorem jsCell_bounds {b : Board} {r c : Int} {v : Nat} (h : jsCell b r c = some v)
    {rows columns : Nat} (hs : shapeOK rows columns b) :
    0 ≤ r ∧ r < (rows : Int) ∧ 0 ≤ c ∧ c < (columns : Int) := by
  obtain ⟨hr, hc, row, hrow, hv⟩ := jsCell_elim h
  obtain ⟨hlen, hrows⟩ := hs
  have h1 : r.toNat < b.length := get?_some_lt hrow
  have hmem : row ∈ b := List.get?_mem hrow
  have h2 : c.toNat < row.length := get?_some_lt hv
  have h3 := hrows row hmem
  exact ⟨hr, by omega, hc, by omega⟩

theorem jsCell_initBoard {rows columns : Nat} {r c : Int}
    (hr0 : 0 ≤ r) (hr1 : r < (rows : Int)) (hc0 : 0 ≤ c) (hc1 : c < (columns : Int)) :
    jsCell (initBoard rows columns) r c = some 0 := by
  have hrn : r.toNat < rows := by omega
  have hcn : c.toNat < columns := by omega
  have hrow : (initBoard rows columns).get? r.toNat = some (List.replicate columns 0) := by
    rw [List.get?_eq_getElem?]
    simp [initBoard, List.getElem?_replicate, hrn]
  have hv : (List.replicate columns 0).get? c.toNat = some 0 := by
    rw [List.get?_eq_getElem?]
    simp [List.getElem?_replicate, hcn]
  exact jsCell_intro hr0 hc0 hrow hv

theorem jsCell_setCell_self {b : Board} {r c : Int} {w : Nat} (h : jsCell b r c = some w)
    (v : Nat) : jsCell (setCell b r c v) r c = some v := by
  obtain ⟨hr, hc, row, hrow, hv⟩ := jsCell_elim h
  have h1 : r.toNat < b.length := get?_some_lt hrow
  have h2 : c.toNat < row.length := get?_some_lt hv
  have hrow2 : (setCell b r c v).get? r.toNat = some (row.set c.toNat v) := by
    unfold setCell
    rw [getD_eq_of_get? hrow]
    exact List.get?_set_eq_of_lt _ h1
  exact jsCell_intro hr hc hrow2 (List.get?_set_eq_of_lt _ h2)

theorem jsCell_setCell_other {b : Board} {r c r' c' : Int} {v : Nat}
    (hr : 0 ≤ r) (hc : 0 ≤ c) (hne : ¬(r' = r ∧ c' = c)) :
    jsCell (setCell b r c v) r' c' = jsCell b r' c' := by
  by_cases hp : 0 ≤ r' ∧ 0 ≤ c'
  · obtain ⟨hr', hc'⟩ := hp
    by_cases hrr : r' = r
    · subst hrr
      have hcc : c.toNat ≠ c'.toNat := by omega
      by_cases hlt : r'.toNat < b.length
      · have hrow : b.get? r'.toNat = some (b.get ⟨r'.toNat, hlt⟩) :=
          List.get?_eq_some.mpr ⟨hlt, rfl⟩
        unfold jsCell setCell
        rw [if_pos ⟨hr', hc'⟩, if_pos ⟨hr', hc'⟩, getD_eq_of_get? hrow,
          List.get?_set_eq_of_lt _ hlt, hrow, Option.some_bind, Option.some_bind]
        exact List.get?_set_ne _ _ hcc
      · unfold setCell
        rw [List.set_eq_of_length_le (by omega)]
    · have hrn : r'.toNat ≠ r.toNat := by omega
      unfold jsCell setCell
      rw [if_pos ⟨hr', hc'⟩, if_pos ⟨hr', hc'⟩,
        List.get?_set_ne _ _ (fun he => hrn he.symm)]
  · rw [jsCell_neg hp, jsCell_neg hp]

theorem setCell_cancel {b : Board} {r c : Int} {w : Nat} (h : jsCell b r c = some w)
    (v : Nat) : setCell (setCell b r c v) r c w = b := by
  obtain ⟨hr, hc, row, hrow, hv⟩ := jsCell_elim h
  have h1 : r.toNat < b.length := get?_some_lt hrow
  have h2 : c.toNat < row.length := get?_some_lt hv
  have hget2 : (b.set r.toNat (row.set c.toNat v)).get? r.toNat =
      some (row.set c.toNat v) := List.get?_set_eq_of_lt _ h1
  unfold setCell
  rw [getD_eq_of_get? hrow, getD_eq_of_get? hget2, List.set_set, List.set_set,
    list_set_self _ _ hv, list_set_self _ _ hrow]

theorem shapeOK_initBoard (rows columns : Nat) :
    shapeOK rows columns (initBoard rows columns) := by
  constructor
  · simp [initBoard]
  · intro row hrow
    rw [List.eq_of_mem_replicate hrow]
    simp

theorem shapeOK_setCell {rows columns : Nat} {b : Board} (hs : shapeOK rows columns b)
    (r c : Int) (v : Nat) : shapeOK rows columns (setCell b r c v) := by
  obtain ⟨hlen, hrows⟩ := hs
  by_cases hlt : r.toNat < b.length
  · constructor
    · simpa [setCell] using hlen
    · intro row hrow
      rcases List.mem_or_eq_of_mem_set hrow with hmem | heq
      · exact hrows row hmem
      · subst heq
        have hrowb : b.get? r.toNat = some (b.get ⟨r.toNat, hlt⟩) :=
          List.get?_eq_some.mpr ⟨hlt, rfl⟩
        rw [List.length_set, getD_eq_of_get? hrowb]
        exact hrows _ (List.get_mem b r.toNat hlt)
  · unfold setCell
    rw [List.set_eq_of_length_le (by omega)]
    exact ⟨hlen, hrows⟩

/-! ### The bottom-up scan of `getLowestEmptyRow` -/

theorem lowestEmptyAux_neg_iff {b : Board} {c : Int} :
    ∀ n : Nat, lowestEmptyAux b c n = -1 ↔ ∀ r : Nat, r < n → jsCell b r c ≠ some 0 := by
  intro n
  induction n with
  | zero => simp [lowestEmptyAux]
  | succ k ih =>
    unfold lowestEmptyAux
    by_cases hc : jsCell b (k : Int) c = some 0
    · rw [if_pos hc]
      constructor
      · intro h; exact absurd h (by omega)
      · intro h; exact absurd hc (h k (by omega))
    · rw [if_neg hc, ih]
      constructor
      · intro h r hr
        rcases Nat.lt_succ_iff_lt_or_eq.mp hr with h1 | h1
        · exact h r h1
        · rw [h1]; exact hc
      · intro h r hr
        exact h r (by omega)

theorem lowestEmptyAux_coe_iff {b : Board} {c : Int} {ρ : Nat} :
    ∀ n : Nat, lowestEmptyAux b c n = (ρ : Int) ↔
      ρ < n ∧ jsCell b ρ c = some 0 ∧
        ∀ r : Nat, ρ < r → r < n → jsCell b r c ≠ some 0 := by
  intro n
  induction n with
  | zero =>
    simp only [lowestEmptyAux]
    constructor
    · intro h; exact absurd h (by omega)
    · intro h; exact absurd h.1 (by omega)
  | succ k ih =>
    unfold lowestEmptyAux
    by_cases hc : jsCell b (k : Int) c = some 0
    · rw [if_pos hc]
      constructor
      · intro h
        have hk : ρ = k := by omega
        subst hk
        exact ⟨by omega, hc, fun r h1 h2 => absurd (by omega : r < r) (by omega)⟩
      · intro ⟨h1, h2, h3⟩
        have hk : ρ = k := by
          by_contra hne
          exact h3 k (by omega) (by omega) hc
        rw [hk]
    · rw [if_neg hc, ih]
      constructor
      · intro ⟨h1, h2, h3⟩
        refine ⟨by omega, h2, fun r hr1 hr2 => ?_⟩
        rcases Nat.lt_succ_iff_lt_or_eq.mp hr2 with h4 | h4
        · exact h3 r hr1 h4
        · rw [h4]; exact hc
      · intro ⟨h1, h2, h3⟩
        have hk : ρ ≠ k := fun he => hc (he ▸ h2)
        exact ⟨by omega, h2, fun r hr1 hr2 => h3 r hr1 (by omega)⟩

theorem lowestEmptyAux_cases (b : Board) (c : Int) (n : Nat) :
    lowestEmptyAux b c n = -1 ∨ ∃ ρ : Nat, ρ < n ∧ lowestEmptyAux b c n = (ρ : Int) := by
  induction n with
  | zero => exact Or.inl rfl
  | succ k ih =>
    unfold lowestEmptyAux
    by_cases hc : jsCell b (k : Int) c = some 0
    · rw [if_pos hc]
      exact Or.inr ⟨k, by omega, rfl⟩
    · rw [if_neg hc]
      rcases ih with h | ⟨ρ, h1, h2⟩
      · exact Or.inl h
      · exact Or.inr ⟨ρ, by omega, h2⟩

/-! ### The direction scans of `#checkDirection` / `#getWinningPositions` -/

theorem runFrom_matches (rows columns : Nat) (b : Board) (p : Option Nat) (dr dc : Int) :
    ∀ (fuel : Nat) (r c : Int) (i : Nat), 1 ≤ i →
      i ≤ runFrom rows columns b p r c dr dc fuel →
      isValidCell rows columns (r + (i : Int) * dr) (c + (i : Int) * dc) = true ∧
        jsCell b (r + (i : Int) * dr) (c + (i : Int) * dc) = p := by
  intro fuel
  induction fuel with
  | zero =>
    intro r c i h1 h2
    exact absurd (h2.trans_eq rfl) (by simp [runFrom]; omega)
  | succ f ih =>
    intro r c i h1 h2
    unfold runFrom at h2
    split at h2
    case isTrue hcond =>
      simp only [Bool.and_eq_true, decide_eq_true_eq] at hcond
      match i, h1 with
      | 1, _ =>
        have e1 : r + ((1 : Nat) : Int) * dr = r + dr := by push_cast; ring
        have e2 : c + ((1 : Nat) : Int) * dc = c + dc := by push_cast; ring
        rw [e1, e2]
        exact ⟨hcond.1, hcond.2⟩
      | j + 2, _ =>
        have h3 := ih (r + dr) (c + dc) (j + 1) (by omega) (by omega)
        have e1 : r + dr + ((j + 1 : Nat) : Int) * dr = r + ((j + 2 : Nat) : Int) * dr := by
          push_cast; ring
        have e2 : c + dc + ((j + 1 : Nat) : Int) * dc = c + ((j + 2 : Nat) : Int) * dc := by
          push_cast; ring
        rw [e1, e2] at h3
        exact h3
    case isFalse => omega

theorem runFrom_ge (rows columns : Nat) (b : Board) (p : Option Nat) (dr dc : Int) :
    ∀ (m fuel : Nat) (r c : Int), m ≤ fuel →
      (∀ i : Nat, 1 ≤ i → i ≤ m →
        isValidCell rows columns (r + (i : Int) * dr) (c + (i : Int) * dc) = true ∧
          jsCell b (r + (i : Int) * dr) (c + (i : Int) * dc) = p) →
      m ≤ runFrom rows columns b p r c dr dc fuel := by
  intro m
  induction m with
  | zero => intro fuel r c _ _; omega
  | succ j ih =>
    intro fuel r c hf hall
    cases fuel with
    | zero => omega
    | succ f =>
      have h1 := hall 1 (by omega) (by omega)
      have e1 : r + ((1 : Nat) : Int) * dr = r + dr := by push_cast; ring
      have e2 : c + ((1 : Nat) : Int) * dc = c + dc := by push_cast; ring
      rw [e1, e2] at h1
      unfold runFrom
      rw [if_pos (by simp [h1.1, h1.2])]
      have h2 : j ≤ runFrom rows columns b p (r + dr) (c + dc) dr dc f := by
        refine ih f (r + dr) (c + dc) (by omega) (fun i hi1 hi2 => ?_)
        have h3 := hall (i + 1) (by omega) (by omega)
        have e3 : r + ((i + 1 : Nat) : Int) * dr = r + dr + (i : Int) * dr := by
          push_cast; ring
        have e4 : c + ((i + 1 : Nat) : Int) * dc = c + dc + (i : Int) * dc := by
          push_cast; ring
        rw [e3, e4] at h3
        exact h3
      omega

theorem runFrom_succ (rows columns : Nat) (b : Board) (p : Option Nat)
    (r c dr dc : Int) (f : Nat) :
    runFrom rows columns b p r c dr dc (f + 1) =
      if isValidCell rows columns (r + dr) (c + dc) && decide (jsCell b (r + dr) (c + dc) = p)
      then runFrom rows columns b p (r + dr) (c + dc) dr dc f + 1
      else 0 := rfl

theorem runFrom_stops (rows columns : Nat) (b : Board) (p : Option Nat) (dr dc : Int) :
    ∀ (fuel : Nat) (r c : Int),
      runFrom rows columns b p r c dr dc fuel < fuel →
      ¬(isValidCell rows columns
            (r + ((runFrom rows columns b p r c dr dc fuel + 1 : Nat) : Int) * dr)
            (c + ((runFrom rows columns b p r c dr dc fuel + 1 : Nat) : Int) * dc) = true ∧
          jsCell b (r + ((runFrom rows columns b p r c dr dc fuel + 1 : Nat) : Int) * dr)
            (c + ((runFrom rows columns b p r c dr dc fuel + 1 : Nat) : Int) * dc) = p) := by
  intro fuel
  induction fuel with
  | zero => intro r c h; omega
  | succ f ih =>
    intro r c h
    rcases hsplit : (isValidCell rows columns (r + dr) (c + dc) &&
        decide (jsCell b (r + dr) (c + dc) = p)) with hfalse | htrue
    · have hrun : runFrom rows columns b p r c dr dc (f + 1) = 0 := by
        rw [runFrom_succ, hsplit]
        simp
      rw [hrun]
      have e1 : r + ((0 + 1 : Nat) : Int) * dr = r + dr := by push_cast; ring
      have e2 : c + ((0 + 1 : Nat) : Int) * dc = c + dc := by push_cast; ring
      rw [e1, e2]
      intro hcontra
      rw [hcontra.1, hcontra.2] at hsplit
      simp at hsplit
    · have hrun : runFrom rows columns b p r c dr dc (f + 1) =
          runFrom rows columns b p (r + dr) (c + dc) dr dc f + 1 := by
        rw [runFrom_succ, hsplit]
        simp
      rw [hrun] at h ⊢
      have h2 := ih (r + dr) (c + dc) (by omega)
      set rn := runFrom rows columns b p (r + dr) (c + dc) dr dc f with hrn
      have e1 : r + ((rn + 1 + 1 : Nat) : Int) * dr = r + dr + ((rn + 1 : Nat) : Int) * dr := by
        push_cast; ring
      have e2 : c + ((rn + 1 + 1 : Nat) : Int) * dc = c + dc + ((rn + 1 : Nat) : Int) * dc := by
        push_cast; ring
      rw [e1, e2]
      exact h2

theorem collectFrom_eq (rows columns : Nat) (b : Board) (p : Option Nat) (dr dc : Int) :
    ∀ (fuel : Nat) (r c : Int),
      collectFrom rows columns b p r c dr dc fuel =
        posSeq r c dr dc (runFrom rows columns b p r c dr dc fuel) := by
  intro fuel
  induction fuel with
  | zero => intro r c; rfl
  | succ f ih =>
    intro r c
    unfold collectFrom runFrom
    split
    · rw [ih]
      rfl
    · rfl

theorem steps_bound {rows columns : Nat} {r c dr dc : Int} {m : Nat}
    (hdr : dr = 0 ∨ dr = 1 ∨ dr = -1) (hdc : dc = 0 ∨ dc = 1 ∨ dc = -1)
    (hne : ¬(dr = 0 ∧ dc = 0))
    (h0 : isValidCell rows columns r c = true)
    (hm : isValidCell rows columns (r + (m : Int) * dr) (c + (m : Int) * dc) = true) :
    m < rows + columns := by
  simp only [isValidCell, Bool.and_eq_true, decide_eq_true_eq] at h0 hm
  rcases hdr with h | h | h <;> rcases hdc with h' | h' | h' <;> subst h h' <;>
    simp only [mul_zero, mul_one, mul_neg_one, add_zero] at hm <;> omega

/-! ### Legal logs and replay -/

theorem replayOK_append {rows columns : Nat} :
    ∀ (l1 l2 : List MoveRec) (b : Board) (n : Nat),
      replayOK rows columns b n (l1 ++ l2) ↔
        replayOK rows columns b n l1 ∧
          replayOK rows columns (l1.foldl applyRec b) (n + l1.length) l2 := by
  intro l1
  induction l1 with
  | nil =>
    intro l2 b n
    simp [replayOK]
  | cons m rest ih =>
    intro l2 b n
    simp only [List.cons_append, replayOK, List.foldl_cons, List.length_cons, List.append_eq]
    rw [ih, and_assoc]
    have e : n + 1 + rest.length = n + (rest.length + 1) := by omega
    rw [e]

theorem replayAll_append (rows columns : Nat) (l : List MoveRec) (m : MoveRec) :
    replayAll rows columns (l ++ [m]) = applyRec (replayAll rows columns l) m := by
  simp [replayAll, List.foldl_append]

theorem shapeOK_foldl {rows columns : Nat} :
    ∀ (l : List MoveRec) (b : Board), shapeOK rows columns b →
      shapeOK rows columns (l.foldl applyRec b) := by
  intro l
  induction l with
  | nil => intro b hb; exact hb
  | cons m rest ih =>
    intro b hb
    exact ih (applyRec b m) (shapeOK_setCell hb _ _ _)

theorem shapeOK_replayAll (rows columns : Nat) (l : List MoveRec) :
    shapeOK rows columns (replayAll rows columns l) :=
  shapeOK_foldl l _ (shapeOK_initBoard rows columns)

theorem emptyUp_initBoard (rows columns : Nat) : emptyUp (initBoard rows columns) := by
  intro r c hr h
  have hb := jsCell_bounds h (shapeOK_initBoard rows columns)
  exact jsCell_initBoard hr (by omega) hb.2.2.1 (by omega)

theorem emptyUp_step {rows columns : Nat} {b : Board} {n : Nat} {m : MoveRec}
    (hs : shapeOK rows columns b) (he : emptyUp b)
    (hl : stepLegal rows columns b n m) : emptyUp (applyRec b m) := by
  obtain ⟨hc0, hc1, hrow, hne, hpl⟩ := hl
  rcases lowestEmptyAux_cases b m.column rows with hneg | ⟨ρ, hρlt, hρeq⟩
  · exact absurd (hrow.trans hneg) hne
  · rw [hρeq] at hrow
    obtain ⟨-, hempty, hocc⟩ := (lowestEmptyAux_coe_iff rows).mp hρeq
    have hplv : jsCell (applyRec b m) m.row m.column = some m.player := by
      unfold applyRec
      exact jsCell_setCell_self (hrow ▸ hempty) m.player
    intro r c hr h
    by_cases hread : r + 1 = m.row ∧ c = m.column
    · exfalso
      rw [hread.1, hread.2, hplv] at h
      have : m.player = 0 := Option.some.inj h
      omega
    · have hfr : jsCell (applyRec b m) (r + 1) c = jsCell b (r + 1) c :=
        jsCell_setCell_other (hrow ▸ Int.ofNat_nonneg ρ) hc0 hread
      rw [hfr] at h
      by_cases htgt : r = m.row ∧ c = m.column
      · exfalso
        rw [htgt.1, htgt.2, hrow] at h
        have hb := jsCell_bounds h hs
        have e : ((ρ + 1 : Nat) : Int) = (ρ : Int) + 1 := by push_cast; ring
        exact hocc (ρ + 1) (by omega) (by omega) (e ▸ h)
      · have h2 := he r c hr h
        have hfr2 : jsCell (applyRec b m) r c = jsCell b r c :=
          jsCell_setCell_other (hrow ▸ Int.ofNat_nonneg ρ) hc0 htgt
        rw [hfr2]
        exact h2

theorem emptyUp_foldl {rows columns : Nat} :
    ∀ (l : List MoveRec) (b : Board) (n : Nat), shapeOK rows columns b → emptyUp b →
      replayOK rows columns b n l → emptyUp (l.foldl applyRec b) := by
  intro l
  induction l with
  | nil => intro b n _ he _; exact he
  | cons m rest ih =>
    intro b n hs he hok
    obtain ⟨hstep, hrest⟩ := hok
    exact ih (applyRec b m) (n + 1) (shapeOK_setCell hs _ _ _)
      (emptyUp_step hs he hstep) hrest

/-! ### Branch analysis of `makeMove` and `undoMove` -/

theorem undoMove_elim {s : GameState} {m : MoveRec}
    (h : s.moveHistory.getLast? = some m) :
    undoMove s = (some m, { s with
      board := setCell s.board m.row m.column 0,
      moveHistory := s.moveHistory.dropLast, gameOver := false, isDrawn := false,
      winningPositions := [], winner := none }) := by
  simp only [undoMove, h]

theorem makeMove_rejected_guard {s : GameState} {c : Int}
    (h : (s.gameOver || !(isValidMove s c)) = true) : makeMove s c = (none, s) := by
  simp only [makeMove, h]
  simp

theorem makeMove_rejected_full {s : GameState} {c : Int}
    (hcond : (s.gameOver || !(isValidMove s c)) = false)
    (h : getLowestEmptyRow s c = -1) : makeMove s c = (none, s) := by
  simp only [makeMove, hcond]
  rw [if_neg (by simp), h, if_pos rfl]

theorem makeMove_win_eq {s : GameState} {c : Int} {ρ : Nat} {ps : List Pos}
    (hcond : (s.gameOver || !(isValidMove s c)) = false)
    (hle : getLowestEmptyRow s c = (ρ : Int))
    (hcw : checkWin s.rows s.columns
      (setCell s.board (ρ : Int) c (getCurrentPlayer s)) (ρ : Int) c = some ps) :
    makeMove s c = (some ⟨(ρ : Int), c, getCurrentPlayer s, MoveType.win, ps⟩,
      { s with
        board := setCell s.board (ρ : Int) c (getCurrentPlayer s),
        moveHistory := s.moveHistory ++ [⟨(ρ : Int), c, getCurrentPlayer s, MoveType.win, ps⟩],
        gameOver := true, winner := some (getCurrentPlayer s),
        winningPositions := ps }) := by
  simp only [makeMove, hcond]
  rw [if_neg (by simp), hle, if_neg (by omega : ¬((ρ : Int) = -1)), hcw]

theorem makeMove_draw_eq {s : GameState} {c : Int} {ρ : Nat}
    (hcond : (s.gameOver || !(isValidMove s c)) = false)
    (hle : getLowestEmptyRow s c = (ρ : Int))
    (hcw : checkWin s.rows s.columns
      (setCell s.board (ρ : Int) c (getCurrentPlayer s)) (ρ : Int) c = none)
    (hfull : s.moveHistory.length + 1 = s.rows * s.columns) :
    makeMove s c = (some ⟨(ρ : Int), c, getCurrentPlayer s, MoveType.draw, []⟩,
      { s with
        board := setCell s.board (ρ : Int) c (getCurrentPlayer s),
        moveHistory := s.moveHistory ++ [⟨(ρ : Int), c, getCurrentPlayer s, MoveType.draw, []⟩],
        gameOver := true, isDrawn := true }) := by
  simp only [makeMove, hcond]
  rw [if_neg (by simp), hle, if_neg (by omega : ¬((ρ : Int) = -1)), hcw, if_pos hfull]

theorem makeMove_move_eq {s : GameState} {c : Int} {ρ : Nat}
    (hcond : (s.gameOver || !(isValidMove s c)) = false)
    (hle : getLowestEmptyRow s c = (ρ : Int))
    (hcw : checkWin s.rows s.columns
      (setCell s.board (ρ : Int) c (getCurrentPlayer s)) (ρ : Int) c = none)
    (hfull : ¬(s.moveHistory.length + 1 = s.rows * s.columns)) :
    makeMove s c = (some ⟨(ρ : Int), c, getCurrentPlayer s, MoveType.move, []⟩,
      { s with
        board := setCell s.board (ρ : Int) c (getCurrentPlayer s),
        moveHistory := s.moveHistory ++ [⟨(ρ : Int), c, getCurrentPlayer s, MoveType.move, []⟩] }) := by
  simp only [makeMove, hcond]
  rw [if_neg (by simp), hle, if_neg (by omega : ¬((ρ : Int) = -1)), hcw, if_neg hfull]

theorem makeMove_none_snd {s : GameState} {c : Int}
    (h : (makeMove s c).1 = none) : (makeMove s c).2 = s := by
  cases hcond : (s.gameOver || !(isValidMove s c)) with
  | true => rw [makeMove_rejected_guard hcond]
  | false =>
    rcases lowestEmptyAux_cases s.board c s.rows with hneg | ⟨ρ, hρlt, hρeq⟩
    · rw [makeMove_rejected_full hcond hneg]
    · exfalso
      have hle : getLowestEmptyRow s c = (ρ : Int) := hρeq
      rcases hcw : checkWin s.rows s.columns
          (setCell s.board (ρ : Int) c (getCurrentPlayer s)) (ρ : Int) c with _ | ps
      · by_cases hfull : s.moveHistory.length + 1 = s.rows * s.columns
        · rw [makeMove_draw_eq hcond hle hcw hfull] at h
          simp at h
        · rw [makeMove_move_eq hcond hle hcw hfull] at h
          simp at h
      · rw [makeMove_win_eq hcond hle hcw] at h
        simp at h

theorem makeMove_elim {s : GameState} {c : Int} {m : MoveRec}
    (h : (makeMove s c).1 = some m) :
    s.gameOver = false ∧ isValidMove s c = true ∧
    ∃ ρ : Nat, ρ < s.rows ∧ getLowestEmptyRow s c = (ρ : Int) ∧
      m.row = (ρ : Int) ∧ m.column = c ∧ m.player = getCurrentPlayer s ∧
      ((∃ ps, checkWin s.rows s.columns
            (setCell s.board (ρ : Int) c (getCurrentPlayer s)) (ρ : Int) c = some ps ∧
          m.type = MoveType.win ∧ m.winningPositions = ps ∧
          makeMove s c = (some m, { s with
            board := setCell s.board (ρ : Int) c (getCurrentPlayer s),
            moveHistory := s.moveHistory ++ [m],
            gameOver := true, winner := some (getCurrentPlayer s),
            winningPositions := ps })) ∨
       (checkWin s.rows s.columns
            (setCell s.board (ρ : Int) c (getCurrentPlayer s)) (ρ : Int) c = none ∧
          s.moveHistory.length + 1 = s.rows * s.columns ∧
          m.type = MoveType.draw ∧ m.winningPositions = [] ∧
          makeMove s c = (some m, { s with
            board := setCell s.board (ρ : Int) c (getCurrentPlayer s),
            moveHistory := s.moveHistory ++ [m],
            gameOver := true, isDrawn := true })) ∨
       (checkWin s.rows s.columns
            (setCell s.board (ρ : Int) c (getCurrentPlayer s)) (ρ : Int) c = none ∧
          s.moveHistory.length + 1 ≠ s.rows * s.columns ∧
          m.type = MoveType.move ∧ m.winningPositions = [] ∧
          makeMove s c = (some m, { s with
            board := setCell s.board (ρ : Int) c (getCurrentPlayer s),
            moveHistory := s.moveHistory ++ [m] }))) := by
  cases hcond : (s.gameOver || !(isValidMove s c)) with
  | true =>
    rw [makeMove_rejected_guard hcond] at h
    simp at h
  | false =>
    obtain ⟨hgo, hvm⟩ := Bool.or_eq_false_iff.mp hcond
    have hvm' : isValidMove s c = true := by
      cases hx : isValidMove s c
      · rw [hx] at hvm; simp at hvm
      · rfl
    rcases lowestEmptyAux_cases s.board c s.rows with hneg | ⟨ρ, hρlt, hρeq⟩
    · rw [makeMove_rejected_full hcond hneg] at h
      simp at h
    · have hle : getLowestEmptyRow s c = (ρ : Int) := hρeq
      rcases hcw : checkWin s.rows s.columns
          (setCell s.board (ρ : Int) c (getCurrentPlayer s)) (ρ : Int) c with _ | ps
      · by_cases hfull : s.moveHistory.length + 1 = s.rows * s.columns
        · have hbody := makeMove_draw_eq hcond hle hcw hfull
          have hm : m = ⟨(ρ : Int), c, getCurrentPlayer s, MoveType.draw, []⟩ := by
            rw [hbody] at h
            exact (Option.some.inj h).symm
          subst hm
          exact ⟨hgo, hvm', ρ, hρlt, hle, rfl, rfl, rfl,
            Or.inr (Or.inl ⟨hcw, hfull, rfl, rfl, hbody⟩)⟩
        · have hbody := makeMove_move_eq hcond hle hcw hfull
          have hm : m = ⟨(ρ : Int), c, getCurrentPlayer s, MoveType.move, []⟩ := by
            rw [hbody] at h
            exact (Option.some.inj h).symm
          subst hm
          exact ⟨hgo, hvm', ρ, hρlt, hle, rfl, rfl, rfl,
            Or.inr (Or.inr ⟨hcw, hfull, rfl, rfl, hbody⟩)⟩
      · have hbody := makeMove_win_eq hcond hle hcw
        have hm : m = ⟨(ρ : Int), c, getCurrentPlayer s, MoveType.win, ps⟩ := by
          rw [hbody] at h
          exact (Option.some.inj h).symm
        subst hm
        exact ⟨hgo, hvm', ρ, hρlt, hle, rfl, rfl, rfl,
          Or.inl ⟨ps, hcw, rfl, rfl, hbody⟩⟩

/-! ### The invariant holds in every reachable state -/

theorem inv_init {rows columns : Nat} (hr : 1 ≤ rows) (hc : 1 ≤ columns) :
    Inv (initState rows columns) := by
  refine ⟨hr, hc, trivial, rfl, fun _ => ⟨rfl, rfl, rfl⟩, fun h => ?_⟩
  simp [initState] at h

theorem inv_stepLegal {s : GameState} {c : Int} {m : MoveRec} {ρ : Nat}
    (hvm : isValidMove s c = true) (hle : getLowestEmptyRow s c = (ρ : Int))
    (hmrow : m.row = (ρ : Int)) (hmcol : m.column = c)
    (hmpl : m.player = getCurrentPlayer s) :
    stepLegal s.rows s.columns s.board s.moveHistory.length m := by
  have hv : (0 ≤ c ∧ c < (s.columns : Int)) ∧ jsCell s.board 0 c = some 0 := by
    simpa [isValidMove, Bool.and_eq_true, decide_eq_true_eq] using hvm
  refine ⟨hmcol ▸ hv.1.1, hmcol ▸ hv.1.2, ?_, ?_, hmpl⟩
  · rw [hmrow, hmcol]
    exact hle.symm
  · rw [hmrow]
    omega

theorem inv_move {s s' : GameState} {c : Int} {m : MoveRec} (hi : Inv s)
    (h : makeMove s c = (some m, s')) : Inv s' := by
  obtain ⟨hr, hc, hok, hbd, hclean, hover⟩ := hi
  have h1 : (makeMove s c).1 = some m := by rw [h]
  obtain ⟨hgo, hvm, ρ, hρlt, hle, hmrow, hmcol, hmpl, hbr⟩ := makeMove_elim h1
  have hstep : stepLegal s.rows s.columns s.board s.moveHistory.length m :=
    inv_stepLegal hvm hle hmrow hmcol hmpl
  have hokext : replayOK s.rows s.columns (initBoard s.rows s.columns) 0
      (s.moveHistory ++ [m]) := by
    rw [replayOK_append]
    refine ⟨hok, ?_, trivial⟩
    show stepLegal s.rows s.columns
      (List.foldl applyRec (initBoard s.rows s.columns) s.moveHistory)
      (0 + s.moveHistory.length) m
    rw [Nat.zero_add]
    have : List.foldl applyRec (initBoard s.rows s.columns) s.moveHistory = s.board := by
      rw [hbd]; rfl
    rw [this]
    exact hstep
  have hbext : setCell s.board (ρ : Int) c (getCurrentPlayer s) =
      replayAll s.rows s.columns (s.moveHistory ++ [m]) := by
    rw [replayAll_append]
    unfold applyRec
    rw [hmrow, hmcol, hmpl, hbd]
  rcases hbr with ⟨ps, hcw, hty, hwp, hmk⟩ | ⟨hcw, hfull, hty, hwp, hmk⟩ |
      ⟨hcw, hfull, hty, hwp, hmk⟩ <;>
    rw [h] at hmk <;>
    obtain ⟨-, hs'⟩ := Prod.mk.injEq .. |>.mp hmk <;> subst hs'
  · exact ⟨hr, hc, hokext, hbext, fun hfalse => by simp at hfalse,
      fun _ => Or.inl (by simp)⟩
  · exact ⟨hr, hc, hokext, hbext, fun hfalse => by simp at hfalse,
      fun _ => Or.inr rfl⟩
  · exact ⟨hr, hc, hokext, hbext,
      fun _ => hclean hgo, fun hh => absurd (hgo ▸ hh) (by simp)⟩

theorem inv_undo {s s' : GameState} {m : MoveRec} (hi : Inv s)
    (h : undoMove s = (some m, s')) : Inv s' := by
  obtain ⟨hr, hc, hok, hbd, hclean, hover⟩ := hi
  rcases hlast : s.moveHistory.getLast? with _ | m'
  · rw [undoMove, hlast] at h
    simp at h
  · have he := undoMove_elim hlast
    rw [he] at h
    obtain ⟨hm, hs'⟩ := Prod.mk.injEq .. |>.mp h
    have hm' : m' = m := Option.some.inj hm
    subst hm'
    subst hs'
    have hsplitL : s.moveHistory.dropLast ++ [m'] = s.moveHistory :=
      List.dropLast_append_getLast? m' hlast
    have hok2 : replayOK s.rows s.columns (initBoard s.rows s.columns) 0
        (s.moveHistory.dropLast ++ [m']) := by
      rw [hsplitL]
      exact hok
    rw [replayOK_append] at hok2
    obtain ⟨hokd, hstep, -⟩ := hok2
    obtain ⟨hc0, hc1, hrowEq, hrowne, hpl⟩ := hstep
    rw [show List.foldl applyRec (initBoard s.rows s.columns) s.moveHistory.dropLast =
      replayAll s.rows s.columns s.moveHistory.dropLast from rfl] at hrowEq
    rcases lowestEmptyAux_cases (replayAll s.rows s.columns s.moveHistory.dropLast)
        m'.column s.rows with hneg | ⟨ρ, hρlt, hρeq⟩
    · exact absurd (hrowEq.trans hneg) hrowne
    · rw [hρeq] at hrowEq
      have hempty := ((lowestEmptyAux_coe_iff s.rows).mp hρeq).2.1
      have hB : s.board = applyRec (replayAll s.rows s.columns s.moveHistory.dropLast) m' := by
        rw [hbd]
        conv_lhs => rw [← hsplitL]
        rw [replayAll_append]
      have hrestore : setCell s.board m'.row m'.column 0 =
          replayAll s.rows s.columns s.moveHistory.dropLast := by
        rw [hB]
        unfold applyRec
        exact setCell_cancel (hrowEq ▸ hempty) m'.player
      exact ⟨hr, hc, by simpa using hokd, by simpa using hrestore,
        fun _ => ⟨rfl, rfl, rfl⟩, fun hh => by simp at hh⟩

theorem inv_reset {s : GameState} (hi : Inv s) : Inv (reset s) :=
  inv_init hi.1 hi.2.1

theorem reachable_inv {s : GameState} (h : Reachable s) : Inv s := by
  induction h with
  | init rows columns hr hc => exact inv_init hr hc
  | move _ hmk ih => exact inv_move ih hmk
  | undo _ hun ih => exact inv_undo ih hun
  | reset _ ih => exact inv_reset ih

theorem inv_shape {s : GameState} (hi : Inv s) : shapeOK s.rows s.columns s.board := by
  rw [hi.2.2.2.1]
  exact shapeOK_replayAll s.rows s.columns s.moveHistory

theorem inv_emptyUp {s : GameState} (hi : Inv s) : emptyUp s.board := by
  rw [hi.2.2.2.1]
  exact emptyUp_foldl s.moveHistory (initBoard s.rows s.columns) 0
    (shapeOK_initBoard s.rows s.columns) (emptyUp_initBoard s.rows s.columns) hi.2.2.1

theorem reachable_playMoves :
    ∀ (cs : List Int) (s : GameState), Reachable s → Reachable (playMoves s cs) := by
  intro cs
  induction cs with
  | nil => intro s hs; exact hs
  | cons c rest ih =>
    intro s hs
    have h1 : Reachable (makeMove s c).2 := by
      rcases hm : (makeMove s c).1 with _ | m
      · rw [makeMove_none_snd hm]
        exact hs
      · exact Reachable.move hs (by rw [← hm])
    exact ih _ h1

/-! ### Characterising the win scan -/

theorem hasWin4_iff {rows columns : Nat} {b : Board} {p : Nat} {row col dr dc : Int} :
    hasWin4 rows columns b p row col dr dc ↔
      hasRunThrough rows columns b p row col dr dc := by
  constructor
  · rintro ⟨k, hk, hall⟩
    exact ⟨4, k, le_refl 4, by omega, fun i hi => hall i (by omega)⟩
  · rintro ⟨len, k, hlen, hk, hall⟩
    have hmin1 : min k 3 ≤ k := Nat.min_le_left k 3
    have hmin2 : min k 3 ≤ 3 := Nat.min_le_right k 3
    have hmin3 : min k 3 = k ∨ min k 3 = 3 := min_choice k 3
    refine ⟨min k 3, hmin2, fun i hi => ?_⟩
    have h := hall (i + k - min k 3) (by omega)
    have e : ((i + k - min k 3 : Nat) : Int) - (k : Int) =
        (i : Int) - ((min k 3 : Nat) : Int) := by omega
    rw [e] at h
    exact h

theorem checkDirection_isSome_iff_count {rows columns : Nat} {b : Board}
    {row col dr dc : Int} :
    (checkDirection rows columns b row col dr dc).isSome = true ↔
      4 ≤ 1 + runFrom rows columns b (jsCell b row col) row col dr dc (rows + columns)
        + runFrom rows columns b (jsCell b row col) row col (-dr) (-dc) (rows + columns) := by
  simp only [checkDirection]
  split
  case isTrue h => simp [h]
  case isFalse h => simp [h]

theorem checkDirection_isSome_iff {rows columns : Nat} {b : Board} {pl : Nat}
    {row col dr dc : Int}
    (hdr : dr = 0 ∨ dr = 1 ∨ dr = -1) (hdc : dc = 0 ∨ dc = 1 ∨ dc = -1)
    (hne : ¬(dr = 0 ∧ dc = 0))
    (hvalid : isValidCell rows columns row col = true)
    (hp : jsCell b row col = some pl) :
    (checkDirection rows columns b row col dr dc).isSome = true ↔
      hasWin4 rows columns b pl row col dr dc := by
  have hdr' : -dr = 0 ∨ -dr = 1 ∨ -dr = -1 := by rcases hdr with h | h | h <;> omega
  have hdc' : -dc = 0 ∨ -dc = 1 ∨ -dc = -1 := by rcases hdc with h | h | h <;> omega
  have hne' : ¬(-dr = 0 ∧ -dc = 0) := fun hx => hne ⟨by omega, by omega⟩
  rw [checkDirection_isSome_iff_count, hp]
  constructor
  · intro hcount
    have hmin1 : min (runFrom rows columns b (some pl) row col (-dr) (-dc)
        (rows + columns)) 3 ≤ runFrom rows columns b (some pl) row col (-dr) (-dc)
        (rows + columns) := Nat.min_le_left _ _
    have hmin2 : min (runFrom rows columns b (some pl) row col (-dr) (-dc)
        (rows + columns)) 3 ≤ 3 := Nat.min_le_right _ _
    have hmin3 := min_choice (runFrom rows columns b (some pl) row col (-dr) (-dc)
        (rows + columns)) 3
    refine ⟨min (runFrom rows columns b (some pl) row col (-dr) (-dc)
        (rows + columns)) 3, hmin2, fun i hi => ?_⟩
    rcases Nat.lt_trichotomy i (min (runFrom rows columns b (some pl) row col (-dr) (-dc)
        (rows + columns)) 3) with hlt | heq | hgt
    · have h := runFrom_matches rows columns b (some pl) (-dr) (-dc) (rows + columns) row col
        (min (runFrom rows columns b (some pl) row col (-dr) (-dc) (rows + columns)) 3 - i)
        (by omega) (by omega)
      have e1 : row + ((min (runFrom rows columns b (some pl) row col (-dr) (-dc)
          (rows + columns)) 3 - i : Nat) : Int) * (-dr) =
          row + ((i : Int) - ((min (runFrom rows columns b (some pl) row col (-dr) (-dc)
          (rows + columns)) 3 : Nat) : Int)) * dr := by
        rw [Nat.cast_sub hlt.le]
        ring
      have e2 : col + ((min (runFrom rows columns b (some pl) row col (-dr) (-dc)
          (rows + columns)) 3 - i : Nat) : Int) * (-dc) =
          col + ((i : Int) - ((min (runFrom rows columns b (some pl) row col (-dr) (-dc)
          (rows + columns)) 3 : Nat) : Int)) * dc := by
        rw [Nat.cast_sub hlt.le]
        ring
      rw [e1, e2] at h
      exact h
    · rw [← heq]
      simp only [sub_self, zero_mul, add_zero]
      exact ⟨hvalid, hp⟩
    · have h := runFrom_matches rows columns b (some pl) dr dc (rows + columns) row col
        (i - min (runFrom rows columns b (some pl) row col (-dr) (-dc) (rows + columns)) 3)
        (by omega) (by omega)
      have e1 : row + ((i - min (runFrom rows columns b (some pl) row col (-dr) (-dc)
          (rows + columns)) 3 : Nat) : Int) * dr =
          row + ((i : Int) - ((min (runFrom rows columns b (some pl) row col (-dr) (-dc)
          (rows + columns)) 3 : Nat) : Int)) * dr := by
        rw [Nat.cast_sub hgt.le]
      have e2 : col + ((i - min (runFrom rows columns b (some pl) row col (-dr) (-dc)
          (rows + columns)) 3 : Nat) : Int) * dc =
          col + ((i : Int) - ((min (runFrom rows columns b (some pl) row col (-dr) (-dc)
          (rows + columns)) 3 : Nat) : Int)) * dc := by
        rw [Nat.cast_sub hgt.le]
      rw [e1, e2] at h
      exact h
  · rintro ⟨k, hk, hall⟩
    have hfwd : 3 - k ≤ runFrom rows columns b (some pl) row col dr dc (rows + columns) := by
      by_cases h30 : 3 - k = 0
      · omega
      · have h3 := hall 3 (le_refl 3)
        have e1 : row + (((3 : Nat) : Int) - (k : Int)) * dr =
            row + ((3 - k : Nat) : Int) * dr := by
          rw [Nat.cast_sub hk]
        have e2 : col + (((3 : Nat) : Int) - (k : Int)) * dc =
            col + ((3 - k : Nat) : Int) * dc := by
          rw [Nat.cast_sub hk]
        rw [e1, e2] at h3
        have hb := steps_bound hdr hdc hne hvalid h3.1
        refine runFrom_ge rows columns b (some pl) dr dc (3 - k) (rows + columns) row col
          (by omega) (fun j hj1 hj2 => ?_)
        have h := hall (j + k) (by omega)
        have e3 : row + (((j + k : Nat) : Int) - (k : Int)) * dr = row + (j : Int) * dr := by
          push_cast
          ring
        have e4 : col + (((j + k : Nat) : Int) - (k : Int)) * dc = col + (j : Int) * dc := by
          push_cast
          ring
        rw [e3, e4] at h
        exact h
    have hbwd : k ≤ runFrom rows columns b (some pl) row col (-dr) (-dc) (rows + columns) := by
      by_cases hk0 : k = 0
      · omega
      · have h0 := hall 0 (by omega)
        have e1 : row + (((0 : Nat) : Int) - (k : Int)) * dr =
            row + ((k : Nat) : Int) * (-dr) := by
          push_cast
          ring
        have e2 : col + (((0 : Nat) : Int) - (k : Int)) * dc =
            col + ((k : Nat) : Int) * (-dc) := by
          push_cast
          ring
        rw [e1, e2] at h0
        have hb := steps_bound hdr' hdc' hne' hvalid h0.1
        refine runFrom_ge rows columns b (some pl) (-dr) (-dc) k (rows + columns) row col
          (by omega) (fun j hj1 hj2 => ?_)
        have h := hall (k - j) (by omega)
        have e3 : row + (((k - j : Nat) : Int) - (k : Int)) * dr =
            row + (j : Int) * (-dr) := by
          rw [Nat.cast_sub (by omega)]
          ring
        have e4 : col + (((k - j : Nat) : Int) - (k : Int)) * dc =
            col + (j : Int) * (-dc) := by
          rw [Nat.cast_sub (by omega)]
          ring
        rw [e3, e4] at h
        exact h
    omega

theorem findSome?_isSome_iff {α β : Type _} (f : α → Option β) :
    ∀ l : List α, ((l.findSome? f).isSome = true ↔ ∃ a ∈ l, (f a).isSome = true) := by
  intro l
  induction l with
  | nil => simp [List.findSome?]
  | cons x xs ih =>
    rw [List.findSome?]
    cases hfx : f x <;> simp [hfx, ih]

theorem checkWin_isSome_iff {rows columns : Nat} {b : Board} {pl : Nat} {row col : Int}
    (hvalid : isValidCell rows columns row col = true)
    (hp : jsCell b row col = some pl) :
    (checkWin rows columns b row col).isSome = true ↔
      ∃ d ∈ directions, hasRunThrough rows columns b pl row col d.1 d.2 := by
  rw [checkWin, findSome?_isSome_iff]
  constructor
  · rintro ⟨d, hd, hsome⟩
    refine ⟨d, hd, ?_⟩
    simp only [directions, List.mem_cons, List.not_mem_nil, or_false] at hd
    rcases hd with rfl | rfl | rfl | rfl <;>
      exact hasWin4_iff.mp ((checkDirection_isSome_iff (by decide) (by decide)
        (by decide) hvalid hp).mp hsome)
  · rintro ⟨d, hd, hrun⟩
    refine ⟨d, hd, ?_⟩
    simp only [directions, List.mem_cons, List.not_mem_nil, or_false] at hd
    rcases hd with rfl | rfl | rfl | rfl <;>
      exact (checkDirection_isSome_iff (by decide) (by decide)
        (by decide) hvalid hp).mpr (hasWin4_iff.mpr hrun)

/-! ### Further helpers for the claim theorems -/

theorem gameState_eq {s t : GameState} (h1 : s.rows = t.rows) (h2 : s.columns = t.columns)
    (h3 : s.board = t.board) (h4 : s.moveHistory = t.moveHistory)
    (h5 : s.winningPositions = t.winningPositions) (h6 : s.gameOver = t.gameOver)
    (h7 : s.isDrawn = t.isDrawn) (h8 : s.winner = t.winner) : s = t := by
  cases s
  cases t
  simp only [GameState.mk.injEq]
  exact ⟨h1, h2, h3, h4, h5, h6, h7, h8⟩

theorem inv_lastCell {s : GameState} {m : MoveRec} (hi : Inv s)
    (hm : s.moveHistory.getLast? = some m) :
    jsCell s.board m.row m.column = some m.player := by
  obtain ⟨hr, hc, hok, hbd, hclean, hover⟩ := hi
  have hsplitL : s.moveHistory.dropLast ++ [m] = s.moveHistory :=
    List.dropLast_append_getLast? m hm
  have hok2 : replayOK s.rows s.columns (initBoard s.rows s.columns) 0
      (s.moveHistory.dropLast ++ [m]) := by
    rw [hsplitL]
    exact hok
  rw [replayOK_append] at hok2
  obtain ⟨hokd, hstep, -⟩ := hok2
  obtain ⟨hc0, hc1, hrowEq, hrowne, hpl⟩ := hstep
  rw [show List.foldl applyRec (initBoard s.rows s.columns) s.moveHistory.dropLast =
    replayAll s.rows s.columns s.moveHistory.dropLast from rfl] at hrowEq
  rcases lowestEmptyAux_cases (replayAll s.rows s.columns s.moveHistory.dropLast)
      m.column s.rows with hneg | ⟨ρ, hρlt, hρeq⟩
  · exact absurd (hrowEq.trans hneg) hrowne
  · rw [hρeq] at hrowEq
    have hempty := ((lowestEmptyAux_coe_iff s.rows).mp hρeq).2.1
    have hB : s.board = applyRec (replayAll s.rows s.columns s.moveHistory.dropLast) m := by
      rw [hbd]
      conv_lhs => rw [← hsplitL]
      rw [replayAll_append]
    rw [hB]
    unfold applyRec
    exact jsCell_setCell_self (hrowEq ▸ hempty) m.player

theorem findSome?_eq_some_first {α β : Type _} (f : α → Option β) :
    ∀ (l : List α) (b : β), l.findSome? f = some b →
      ∃ n a, l.get? n = some a ∧ f a = some b ∧
        ∀ j aj, j < n → l.get? j = some aj → f aj = none := by
  intro l
  induction l with
  | nil => intro b h; simp [List.findSome?] at h
  | cons x xs ih =>
    intro b h
    rw [List.findSome?] at h
    rcases hfx : f x with _ | v
    · rw [hfx] at h
      obtain ⟨n, a, h1, h2, h3⟩ := ih b h
      refine ⟨n + 1, a, by simpa using h1, h2, fun j aj hj hjg => ?_⟩
      cases j with
      | zero =>
        simp only [List.get?] at hjg
        cases hjg
        exact hfx
      | succ j' =>
        simp only [List.get?] at hjg
        exact h3 j' aj (by omega) hjg
    · rw [hfx] at h
      exact ⟨0, x, rfl, hfx.trans (congrArg some (Option.some.inj h)),
        fun j aj hj _ => absurd hj (by omega)⟩

theorem checkDirection_some_elim {rows columns : Nat} {b : Board}
    {row col dr dc : Int} {ps : List Pos}
    (h : checkDirection rows columns b row col dr dc = some ps) :
    4 ≤ 1 + runFrom rows columns b (jsCell b row col) row col dr dc (rows + columns) +
        runFrom rows columns b (jsCell b row col) row col (-dr) (-dc) (rows + columns) ∧
    ps = ⟨row, col⟩ :: (collectFrom rows columns b (jsCell b row col) row col dr dc
        (rows + columns) ++
      collectFrom rows columns b (jsCell b row col) row col (-dr) (-dc) (rows + columns)) := by
  simp only [checkDirection] at h
  split at h
  case isTrue hcount => exact ⟨hcount, (Option.some.inj h).symm⟩
  case isFalse => simp at h

theorem direction_props {n : Nat} {d : Int × Int} (h : directions.get? n = some d) :
    (d.1 = 0 ∨ d.1 = 1 ∨ d.1 = -1) ∧ (d.2 = 0 ∨ d.2 = 1 ∨ d.2 = -1) ∧
      ¬(d.1 = 0 ∧ d.2 = 0) := by
  have hn : n < 4 := by
    have := get?_some_lt h
    simpa [directions] using this
  interval_cases n <;>
    · simp only [directions, List.get?] at h
      cases h
      decide

/-! ### Claim theorems -/

/-- C3: in every reachable state — i.e. after any sequence of `makeMove`,
`undoMove` and `reset` operations from the initial state — the grid equals
the replay of the current move log, in order, onto an all-empty grid. -/
theorem board_eq_replay_of_reachable (s : GameState) (hs : Reachable s) :
    s.board = replayAll s.rows s.columns s.moveHistory :=
  (reachable_inv hs).2.2.2.1

/-- Witness for C3 at a concrete reachable state. -/
theorem board_eq_replay_witness :
    (playMoves (initState 6 7) [3, 3, 0]).board =
      replayAll 6 7 (playMoves (initState 6 7) [3, 3, 0]).moveHistory :=
  board_eq_replay_of_reachable _
    (reachable_playMoves [3, 3, 0] _ (Reachable.init 6 7 (by decide) (by decide)))

/-- C4: `makeMove` rejects (returns the `null` sentinel) exactly when the
status is not in-progress, the column is out of `[0, columns)`, or the top
cell of the column is occupied; and a rejected call leaves the state
untouched. -/
theorem makeMove_rejected_iff (s : GameState) (c : Int) (hs : Reachable s) :
    ((makeMove s c).1 = none ↔
      statusOf s ≠ GameStatus.inProgress ∨ ¬(0 ≤ c ∧ c < (s.columns : Int)) ∨
        jsCell s.board 0 c ≠ some 0) ∧
    ((makeMove s c).1 = none → (makeMove s c).2 = s) := by
  obtain ⟨hr, hc, hok, hbd, hclean, hover⟩ := reachable_inv hs
  refine ⟨⟨fun h => ?_, fun h => ?_⟩, fun h => makeMove_none_snd h⟩
  · by_contra hx
    push_neg at hx
    obtain ⟨h1, h2, h3⟩ := hx
    have hwn : s.winner = none := by
      rcases hw : s.winner with _ | p
      · rfl
      · rw [statusOf, hw] at h1
        simp at h1
    have hdw : s.isDrawn = false := by
      rcases hd : s.isDrawn
      · rfl
      · rw [statusOf, hwn, hd] at h1
        simp at h1
    have hgo : s.gameOver = false := by
      rcases hg : s.gameOver
      · rfl
      · rcases hover hg with hcase | hcase
        · exact absurd hwn hcase
        · rw [hdw] at hcase
          simp at hcase
    have hvm : isValidMove s c = true := by
      simp [isValidMove, h2.1, h2.2, h3]
    have hcond : (s.gameOver || !(isValidMove s c)) = false := by
      simp [hgo, hvm]
    rcases lowestEmptyAux_cases s.board c s.rows with hneg | ⟨ρ, hρlt, hρeq⟩
    · have h0 := (lowestEmptyAux_neg_iff s.rows).mp hneg 0 (by omega)
      rw [Nat.cast_zero] at h0
      exact h0 h3
    · rcases hcw : checkWin s.rows s.columns
          (setCell s.board (ρ : Int) c (getCurrentPlayer s)) (ρ : Int) c with _ | ps
      · by_cases hfull : s.moveHistory.length + 1 = s.rows * s.columns
        · rw [makeMove_draw_eq hcond hρeq hcw hfull] at h
          simp at h
        · rw [makeMove_move_eq hcond hρeq hcw hfull] at h
          simp at h
      · rw [makeMove_win_eq hcond hρeq hcw] at h
        simp at h
  · rcases h with h | h | h
    · have hgo : s.gameOver = true := by
        rcases hg : s.gameOver
        · obtain ⟨hw, hd, -⟩ := hclean hg
          exact absurd (by simp [statusOf, hw, hd]) h
        · rfl
      rw [makeMove_rejected_guard (by simp [hgo])]
    · have hvm : isValidMove s c = false := by
        rcases not_and_or.mp h with h' | h' <;> simp [isValidMove, h']
      rw [makeMove_rejected_guard (by simp [hvm])]
    · have hvm : isValidMove s c = false := by
        simp [isValidMove, h]
      rw [makeMove_rejected_guard (by simp [hvm])]

/-- Witness for C4 at a concrete state and column. -/
theorem makeMove_rejected_iff_witness :
    (((makeMove (initState 6 7) 9).1 = none ↔
      statusOf (initState 6 7) ≠ GameStatus.inProgress ∨
        ¬((0 : Int) ≤ 9 ∧ (9 : Int) < ((initState 6 7).columns : Int)) ∨
        jsCell (initState 6 7).board 0 9 ≠ some 0) ∧
    ((makeMove (initState 6 7) 9).1 = none → (makeMove (initState 6 7) 9).2 = initState 6 7)) :=
  makeMove_rejected_iff (initState 6 7) 9 (Reachable.init 6 7 (by decide) (by decide))

/-- C5: with a non-empty log, `undoMove` returns the last record, removes it
from the log, clears its cell to empty, and unconditionally resets the status
to in-progress (game-over, draw and winner all cleared); with an empty log it
returns the sentinel and changes nothing. -/
theorem undoMove_spec (s : GameState) (hs : Reachable s) :
    (s.moveHistory = [] → undoMove s = (none, s)) ∧
    ∀ m, s.moveHistory.getLast? = some m →
      (undoMove s).1 = some m ∧
      (undoMove s).2.moveHistory = s.moveHistory.dropLast ∧
      jsCell (undoMove s).2.board m.row m.column = some 0 ∧
      (undoMove s).2.gameOver = false ∧ (undoMove s).2.isDrawn = false ∧
      (undoMove s).2.winner = none ∧ (undoMove s).2.winningPositions = [] ∧
      statusOf (undoMove s).2 = GameStatus.inProgress := by
  constructor
  · intro h
    simp [undoMove, h]
  · intro m hm
    have he := undoMove_elim hm
    have hcell := inv_lastCell (reachable_inv hs) hm
    rw [he]
    exact ⟨rfl, rfl, jsCell_setCell_self hcell 0, rfl, rfl, rfl, rfl, rfl⟩

/-- Witness for C5 after a winning move on a concrete board. -/
theorem undoMove_spec_witness :
    ((playMoves (initState 6 7) [0, 6, 1, 6, 2, 6, 3]).moveHistory = [] →
      undoMove (playMoves (initState 6 7) [0, 6, 1, 6, 2, 6, 3]) =
        (none, playMoves (initState 6 7) [0, 6, 1, 6, 2, 6, 3])) ∧
    ((undoMove (playMoves (initState 6 7) [0, 6, 1, 6, 2, 6, 3])).1 =
        some ⟨5, 3, 1, MoveType.win, [⟨5, 3⟩, ⟨5, 2⟩, ⟨5, 1⟩, ⟨5, 0⟩]⟩ ∧
      (undoMove (playMoves (initState 6 7) [0, 6, 1, 6, 2, 6, 3])).2.moveHistory =
        (playMoves (initState 6 7) [0, 6, 1, 6, 2, 6, 3]).moveHistory.dropLast ∧
      jsCell (undoMove (playMoves (initState 6 7) [0, 6, 1, 6, 2, 6, 3])).2.board 5 3 = some 0 ∧
      (undoMove (playMoves (initState 6 7) [0, 6, 1, 6, 2, 6, 3])).2.gameOver = false ∧
      (undoMove (playMoves (initState 6 7) [0, 6, 1, 6, 2, 6, 3])).2.isDrawn = false ∧
      (undoMove (playMoves (initState 6 7) [0, 6, 1, 6, 2, 6, 3])).2.winner = none ∧
      (undoMove (playMoves (initState 6 7) [0, 6, 1, 6, 2, 6, 3])).2.winningPositions = [] ∧
      statusOf (undoMove (playMoves (initState 6 7) [0, 6, 1, 6, 2, 6, 3])).2 =
        GameStatus.inProgress) := by
  have hs : Reachable (playMoves (initState 6 7) [0, 6, 1, 6, 2, 6, 3]) :=
    reachable_playMoves [0, 6, 1, 6, 2, 6, 3] _ (Reachable.init 6 7 (by decide) (by decide))
  exact ⟨(undoMove_spec _ hs).1,
    (undoMove_spec _ hs).2 ⟨5, 3, 1, MoveType.win, [⟨5, 3⟩, ⟨5, 2⟩, ⟨5, 1⟩, ⟨5, 0⟩]⟩ (by decide)⟩

/-- C6: an accepted `makeMove` followed by `undoMove` returns the engine to
exactly the prior state (grid, log and status), including when the move ended
the game. -/
theorem undo_after_move (s : GameState) (c : Int) (m : MoveRec) (hs : Reachable s)
    (h : (makeMove s c).1 = some m) : undoMove (makeMove s c).2 = (some m, s) := by
  obtain ⟨hr, hc, hok, hbd, hclean, hover⟩ := reachable_inv hs
  obtain ⟨hgo, hvm, ρ, hρlt, hle, hmrow, hmcol, hmpl, hbr⟩ := makeMove_elim h
  have hle' : lowestEmptyAux s.board c s.rows = (ρ : Int) := hle
  have hempty : jsCell s.board (ρ : Int) c = some 0 :=
    ((lowestEmptyAux_coe_iff s.rows).mp hle').2.1
  obtain ⟨hwn, hdw, hwp⟩ := hclean hgo
  rcases hbr with ⟨ps, hcw, hty, hwpm, hmk⟩ | ⟨hcw, hfull, hty, hwpm, hmk⟩ |
      ⟨hcw, hfull, hty, hwpm, hmk⟩ <;>
    · rw [hmk]
      have hlast : (s.moveHistory ++ [m]).getLast? = some m := List.getLast?_concat _
      rw [undoMove_elim hlast]
      refine congrArg (Prod.mk (some m))
        (gameState_eq rfl rfl ?_ ?_ hwp.symm hgo.symm hdw.symm hwn.symm)
      · show setCell (setCell s.board (ρ : Int) c (getCurrentPlayer s)) m.row m.column 0 = s.board
        rw [hmrow, hmcol]
        exact setCell_cancel hempty (getCurrentPlayer s)
      · exact List.dropLast_concat

/-- Witness for C6 on a concrete winning move. -/
theorem undo_after_move_witness :
    undoMove (makeMove (playMoves (initState 6 7) [0, 6, 1, 6, 2, 6]) 3).2 =
      (some ⟨5, 3, 1, MoveType.win, [⟨5, 3⟩, ⟨5, 2⟩, ⟨5, 1⟩, ⟨5, 0⟩]⟩,
        playMoves (initState 6 7) [0, 6, 1, 6, 2, 6]) :=
  undo_after_move _ 3 _
    (reachable_playMoves [0, 6, 1, 6, 2, 6] _ (Reachable.init 6 7 (by decide) (by decide)))
    (by decide)

theorem accepted_cell_facts {s : GameState} {c : Int} {ρ : Nat}
    (hvm : isValidMove s c = true)
    (hle : getLowestEmptyRow s c = (ρ : Int)) (hρlt : ρ < s.rows) :
    jsCell s.board (ρ : Int) c = some 0 ∧
    isValidCell s.rows s.columns (ρ : Int) c = true ∧
    jsCell (setCell s.board (ρ : Int) c (getCurrentPlayer s)) (ρ : Int) c =
      some (getCurrentPlayer s) := by
  have hle' : lowestEmptyAux s.board c s.rows = (ρ : Int) := hle
  have hempty : jsCell s.board (ρ : Int) c = some 0 :=
    ((lowestEmptyAux_coe_iff s.rows).mp hle').2.1
  have hv : (0 ≤ c ∧ c < (s.columns : Int)) ∧ jsCell s.board 0 c = some 0 := by
    simpa [isValidMove, Bool.and_eq_true, decide_eq_true_eq] using hvm
  obtain ⟨⟨hc0, hc1⟩, htop⟩ := hv
  have hvalid : isValidCell s.rows s.columns (ρ : Int) c = true := by
    simp only [isValidCell, Bool.and_eq_true, decide_eq_true_eq]
    omega
  exact ⟨hempty, hvalid, jsCell_setCell_self hempty _⟩

/-- C1: an accepted `makeMove` ends with status `Won(player)` exactly when
some of the four axes carries, on the post-placement grid, a contiguous run
of at least 4 cells of the mover's id passing through the placed cell; in
particular no gapped or blocked line of 3 is ever reported as a win. -/
theorem makeMove_won_iff (s : GameState) (c : Int) (m : MoveRec) (hs : Reachable s)
    (h : (makeMove s c).1 = some m) :
    statusOf (makeMove s c).2 = GameStatus.won m.player ↔
      ∃ d ∈ directions, hasRunThrough s.rows s.columns (makeMove s c).2.board
        m.player m.row m.column d.1 d.2 := by
  obtain ⟨hr, hc, hok, hbd, hclean, hover⟩ := reachable_inv hs
  obtain ⟨hgo, hvm, ρ, hρlt, hle, hmrow, hmcol, hmpl, hbr⟩ := makeMove_elim h
  obtain ⟨hempty, hvalid, hcell⟩ := accepted_cell_facts hvm hle hρlt
  have hiff := checkWin_isSome_iff hvalid hcell
  obtain ⟨hwn, hdw, hwp⟩ := hclean hgo
  rcases hbr with ⟨ps, hcw, hty, hwpm, hmk⟩ | ⟨hcw, hfull, hty, hwpm, hmk⟩ |
      ⟨hcw, hfull, hty, hwpm, hmk⟩
  · rw [hmk]
    constructor
    · intro _
      have hsome : (checkWin s.rows s.columns
          (setCell s.board (ρ : Int) c (getCurrentPlayer s)) (ρ : Int) c).isSome = true := by
        rw [hcw]
        rfl
      obtain ⟨d, hd, hrun⟩ := hiff.mp hsome
      refine ⟨d, hd, ?_⟩
      rw [hmrow, hmcol, hmpl]
      exact hrun
    · intro _
      rw [hmpl]
      rfl
  · rw [hmk]
    constructor
    · intro hst
      exfalso
      simp [statusOf, hwn] at hst
    · rintro ⟨d, hd, hrun⟩
      exfalso
      rw [hmrow, hmcol, hmpl] at hrun
      have hsome := hiff.mpr ⟨d, hd, hrun⟩
      rw [hcw] at hsome
      simp at hsome
  · rw [hmk]
    constructor
    · intro hst
      exfalso
      simp [statusOf, hwn, hdw] at hst
    · rintro ⟨d, hd, hrun⟩
      exfalso
      rw [hmrow, hmcol, hmpl] at hrun
      have hsome := hiff.mpr ⟨d, hd, hrun⟩
      rw [hcw] at hsome
      simp at hsome

/-- Witness for C1 at a concrete accepted move. -/
theorem makeMove_won_iff_witness :
    statusOf (makeMove (initState 6 7) 3).2 = GameStatus.won 1 ↔
      ∃ d ∈ directions, hasRunThrough 6 7 (makeMove (initState 6 7) 3).2.board
        1 5 3 d.1 d.2 :=
  makeMove_won_iff (initState 6 7) 3 ⟨5, 3, 1, MoveType.move, []⟩
    (Reachable.init 6 7 (by decide) (by decide)) (by decide)

/-- C2: an accepted `makeMove` lands the token at the unique row of its
column that is empty with every row below it occupied (the bottom-up scan
result), and afterwards `getLowestEmptyRow` of that column is the prior
value minus one (`-1`, column full, when the prior value was 0). -/
theorem makeMove_gravity (s : GameState) (c : Int) (m : MoveRec) (hs : Reachable s)
    (h : (makeMove s c).1 = some m) :
    m.column = c ∧
    jsCell (makeMove s c).2.board m.row c = some m.player ∧
    jsCell s.board m.row c = some 0 ∧
    (∀ r : Int, m.row < r → r < (s.rows : Int) → jsCell s.board r c ≠ some 0) ∧
    (∀ r : Int, jsCell s.board r c = some 0 →
      (∀ r' : Int, r < r' → r' < (s.rows : Int) → jsCell s.board r' c ≠ some 0) →
      r = m.row) ∧
    m.row = getLowestEmptyRow s c ∧
    getLowestEmptyRow (makeMove s c).2 c = m.row - 1 := by
  have hi := reachable_inv hs
  obtain ⟨hgo, hvm, ρ, hρlt, hle, hmrow, hmcol, hmpl, hbr⟩ := makeMove_elim h
  obtain ⟨hempty, hvalid, hcell⟩ := accepted_cell_facts hvm hle hρlt
  have hle' : lowestEmptyAux s.board c s.rows = (ρ : Int) := hle
  have hocc := ((lowestEmptyAux_coe_iff s.rows).mp hle').2.2
  have hoccI : ∀ r : Int, (ρ : Int) < r → r < (s.rows : Int) → jsCell s.board r c ≠ some 0 := by
    intro r h1 h2
    have hr0 : r = ((r.toNat : Nat) : Int) := by omega
    rw [hr0]
    exact hocc r.toNat (by omega) (by omega)
  have hplpos : 1 ≤ getCurrentPlayer s := by
    have : getCurrentPlayer s = s.moveHistory.length % 2 + 1 := rfl
    omega
  have hboard : (makeMove s c).2.board = setCell s.board (ρ : Int) c (getCurrentPlayer s) := by
    rcases hbr with ⟨ps, hcw, hty, hwpm, hmk⟩ | ⟨hcw, hfull, hty, hwpm, hmk⟩ |
        ⟨hcw, hfull, hty, hwpm, hmk⟩ <;> rw [hmk]
  refine ⟨hmcol, by rw [hboard, hmrow, hmpl]; exact hcell,
    by rw [hmrow]; exact hempty, by rw [hmrow]; exact hoccI, ?_, ?_, ?_⟩
  · intro r hre hrocc
    rcases lt_trichotomy r (m.row) with hlt | heq | hgt
    · exfalso
      refine hrocc m.row hlt ?_ (by rw [hmrow]; exact hempty)
      rw [hmrow]
      omega
    · exact heq
    · exfalso
      have hb := jsCell_bounds hre (inv_shape hi)
      refine hoccI r (by omega) (by omega) hre
  · exact hmrow.trans hle.symm
  · rcases hbr with ⟨ps, hcw, hty, hwpm, hmk⟩ | ⟨hcw, hfull, hty, hwpm, hmk⟩ |
        ⟨hcw, hfull, hty, hwpm, hmk⟩ <;>
      · rw [hmk]
        show lowestEmptyAux (setCell s.board (ρ : Int) c (getCurrentPlayer s)) c s.rows =
          m.row - 1
        by_cases hρ0 : ρ = 0
        · subst hρ0
          have hneg : lowestEmptyAux (setCell s.board ((0 : Nat) : Int) c
              (getCurrentPlayer s)) c s.rows = -1 := by
            refine (lowestEmptyAux_neg_iff s.rows).mpr (fun r hr => ?_)
            rcases Nat.eq_zero_or_pos r with hr0 | hr0
            · subst hr0
              rw [hcell]
              intro hx
              have := Option.some.inj hx
              omega
            · rw [jsCell_setCell_other (by omega) (jsCell_bounds hempty (inv_shape hi)).2.2.1
                (by intro hx; omega)]
              exact hoccI (r : Int) (by omega) (by omega)
          rw [hneg, hmrow]
          norm_num
        · have hcoe : lowestEmptyAux (setCell s.board (ρ : Int) c
              (getCurrentPlayer s)) c s.rows = ((ρ - 1 : Nat) : Int) := by
            refine (lowestEmptyAux_coe_iff s.rows).mpr ⟨by omega, ?_, ?_⟩
            · rw [jsCell_setCell_other (by omega) (jsCell_bounds hempty (inv_shape hi)).2.2.1
                (by intro hx; omega)]
              have hup := inv_emptyUp hi ((ρ - 1 : Nat) : Int) c (by omega)
              have e : ((ρ - 1 : Nat) : Int) + 1 = (ρ : Int) := by omega
              rw [e] at hup
              exact hup hempty
            · intro r hr1 hr2
              rcases Nat.lt_trichotomy r ρ with hlt | heq | hgt
              · omega
              · subst heq
                rw [hcell]
                intro hx
                have := Option.some.inj hx
                omega
              · rw [jsCell_setCell_other (by omega) (jsCell_bounds hempty (inv_shape hi)).2.2.1
                  (by intro hx; omega)]
                exact hoccI (r : Int) (by omega) (by omega)
          rw [hcoe, hmrow]
          omega

/-- Witness for C2 at a concrete accepted move. -/
theorem makeMove_gravity_witness :
    ((⟨4, 3, 2, MoveType.move, []⟩ : MoveRec).column = 3 ∧
    jsCell (makeMove (playMoves (initState 6 7) [3]) 3).2.board 4 3 = some 2 ∧
    jsCell (playMoves (initState 6 7) [3]).board 4 3 = some 0 ∧
    (∀ r : Int, (4 : Int) < r → r < (6 : Int) →
      jsCell (playMoves (initState 6 7) [3]).board r 3 ≠ some 0) ∧
    (∀ r : Int, jsCell (playMoves (initState 6 7) [3]).board r 3 = some 0 →
      (∀ r' : Int, r < r' → r' < (6 : Int) →
        jsCell (playMoves (initState 6 7) [3]).board r' 3 ≠ some 0) →
      r = (4 : Int)) ∧
    (4 : Int) = getLowestEmptyRow (playMoves (initState 6 7) [3]) 3 ∧
    getLowestEmptyRow (makeMove (playMoves (initState 6 7) [3]) 3).2 3 = 4 - 1) :=
  makeMove_gravity (playMoves (initState 6 7) [3]) 3 ⟨4, 3, 2, MoveType.move, []⟩
    (reachable_playMoves [3] _ (Reachable.init 6 7 (by decide) (by decide))) (by decide)

/-- C8: an accepted `makeMove` yields status `Drawn` exactly when the win
scan found nothing and the resulting log fills the board (`rows * columns`
entries); with no win and a shorter log the status stays in-progress, and a
winning move is reported `Won` even on the final cell. -/
theorem makeMove_drawn_iff (s : GameState) (c : Int) (m : MoveRec) (hs : Reachable s)
    (h : (makeMove s c).1 = some m) :
    (statusOf (makeMove s c).2 = GameStatus.drawn ↔
      checkWin s.rows s.columns (makeMove s c).2.board m.row m.column = none ∧
        (makeMove s c).2.moveHistory.length = s.rows * s.columns) ∧
    (checkWin s.rows s.columns (makeMove s c).2.board m.row m.column = none ∧
        (makeMove s c).2.moveHistory.length < s.rows * s.columns →
      statusOf (makeMove s c).2 = GameStatus.inProgress) ∧
    (checkWin s.rows s.columns (makeMove s c).2.board m.row m.column ≠ none →
      statusOf (makeMove s c).2 = GameStatus.won m.player) := by
  obtain ⟨hr, hc, hok, hbd, hclean, hover⟩ := reachable_inv hs
  obtain ⟨hgo, hvm, ρ, hρlt, hle, hmrow, hmcol, hmpl, hbr⟩ := makeMove_elim h
  obtain ⟨hwn, hdw, hwp⟩ := hclean hgo
  rcases hbr with ⟨ps, hcw, hty, hwpm, hmk⟩ | ⟨hcw, hfull, hty, hwpm, hmk⟩ |
      ⟨hcw, hfull, hty, hwpm, hmk⟩ <;> rw [hmk] <;> rw [hmrow, hmcol]
  · refine ⟨⟨fun hst => ?_, fun hx => ?_⟩, fun hx => ?_, fun _ => ?_⟩
    · exfalso
      simp [statusOf] at hst
    · exfalso
      have hnone := hx.1
      rw [hcw] at hnone
      simp at hnone
    · exfalso
      have hnone := hx.1
      rw [hcw] at hnone
      simp at hnone
    · rw [hmpl]
      rfl
  · refine ⟨⟨fun _ => ⟨hcw, by simp [hfull]⟩, fun _ => ?_⟩, fun hx => ?_, fun hne => ?_⟩
    · simp [statusOf, hwn]
    · exfalso
      have hlt := hx.2
      simp only [List.length_append, List.length_singleton] at hlt
      omega
    · exact absurd hcw hne
  · refine ⟨⟨fun hst => ?_, fun hx => ?_⟩, fun _ => ?_, fun hne => ?_⟩
    · exfalso
      simp [statusOf, hwn, hdw] at hst
    · exfalso
      have hlen := hx.2
      simp only [List.length_append, List.length_singleton] at hlen
      omega
    · simp [statusOf, hwn, hdw]
    · exact absurd hcw hne

/-- Witness for C8 at a concrete accepted move. -/
theorem makeMove_drawn_iff_witness :
    ((statusOf (makeMove (initState 6 7) 3).2 = GameStatus.drawn ↔
      checkWin 6 7 (makeMove (initState 6 7) 3).2.board 5 3 = none ∧
        (makeMove (initState 6 7) 3).2.moveHistory.length = 6 * 7) ∧
    (checkWin 6 7 (makeMove (initState 6 7) 3).2.board 5 3 = none ∧
        (makeMove (initState 6 7) 3).2.moveHistory.length < 6 * 7 →
      statusOf (makeMove (initState 6 7) 3).2 = GameStatus.inProgress) ∧
    (checkWin 6 7 (makeMove (initState 6 7) 3).2.board 5 3 ≠ none →
      statusOf (makeMove (initState 6 7) 3).2 = GameStatus.won 1)) :=
  makeMove_drawn_iff (initState 6 7) 3 ⟨5, 3, 1, MoveType.move, []⟩
    (Reachable.init 6 7 (by decide) (by decide)) (by decide)

/-- C10 (frame): an accepted `makeMove` flips exactly the landing cell from
empty to the mover's id (1 or 2), leaves every other cell and the dimensions
unchanged, and appends exactly one record to the untouched prior log. -/
theorem makeMove_frame (s : GameState) (c : Int) (m : MoveRec) (hs : Reachable s)
    (h : (makeMove s c).1 = some m) :
    jsCell s.board m.row m.column = some 0 ∧
    jsCell (makeMove s c).2.board m.row m.column = some m.player ∧
    (m.player = 1 ∨ m.player = 2) ∧
    (∀ r k : Int, ¬(r = m.row ∧ k = m.column) →
      jsCell (makeMove s c).2.board r k = jsCell s.board r k) ∧
    (makeMove s c).2.rows = s.rows ∧ (makeMove s c).2.columns = s.columns ∧
    (makeMove s c).2.moveHistory = s.moveHistory ++ [m] := by
  obtain ⟨hgo, hvm, ρ, hρlt, hle, hmrow, hmcol, hmpl, hbr⟩ := makeMove_elim h
  obtain ⟨hempty, hvalid, hcell⟩ := accepted_cell_facts hvm hle hρlt
  have hpl12 : m.player = 1 ∨ m.player = 2 := by
    have : getCurrentPlayer s = s.moveHistory.length % 2 + 1 := rfl
    rw [hmpl]
    omega
  rcases hbr with ⟨ps, hcw, hty, hwpm, hmk⟩ | ⟨hcw, hfull, hty, hwpm, hmk⟩ |
      ⟨hcw, hfull, hty, hwpm, hmk⟩ <;>
    · rw [hmk]
      refine ⟨by rw [hmrow, hmcol]; exact hempty, by rw [hmrow, hmcol, hmpl]; exact hcell,
        hpl12, fun r k hne => ?_, rfl, rfl, rfl⟩
      show jsCell (setCell s.board (ρ : Int) c (getCurrentPlayer s)) r k = jsCell s.board r k
      refine jsCell_setCell_other (by omega)
        (jsCell_bounds hempty (inv_shape (reachable_inv hs))).2.2.1 ?_
      rw [hmrow, hmcol] at hne
      exact hne

/-- Witness for C10 at a concrete accepted move. -/
theorem makeMove_frame_witness :
    jsCell (initState 6 7).board 5 3 = some 0 ∧
    jsCell (makeMove (initState 6 7) 3).2.board 5 3 = some 1 ∧
    ((1 : Nat) = 1 ∨ (1 : Nat) = 2) ∧
    (∀ r k : Int, ¬(r = 5 ∧ k = 3) →
      jsCell (makeMove (initState 6 7) 3).2.board r k = jsCell (initState 6 7).board r k) ∧
    (makeMove (initState 6 7) 3).2.rows = 6 ∧ (makeMove (initState 6 7) 3).2.columns = 7 ∧
    (makeMove (initState 6 7) 3).2.moveHistory =
      (initState 6 7).moveHistory ++ [⟨5, 3, 1, MoveType.move, []⟩] :=
  makeMove_frame (initState 6 7) 3 ⟨5, 3, 1, MoveType.move, []⟩
    (Reachable.init 6 7 (by decide) (by decide)) (by decide)

/-- C9 (spec-modelled): `getBoardAtMove(i)` with `i` in `[0, log length)`
returns the replay of moves `0..i` from an empty grid, never mutates the
engine state, and — consistently with the live grid — returns exactly the
current board when `i` is the last index of a reachable state.  In this pure
model two calls with equal arguments are definitionally equal, so replay
determinism is immediate. -/
theorem getBoardAtMove_spec (s : GameState) (i : Int) :
    (0 ≤ i → i < (s.moveHistory.length : Int) →
      (getBoardAtMove s i).1 =
        some (replayAll s.rows s.columns (s.moveHistory.take (i.toNat + 1)))) ∧
    (getBoardAtMove s i).2 = s ∧
    (Reachable s → 0 ≤ i → i.toNat + 1 = s.moveHistory.length →
      (getBoardAtMove s i).1 = some s.board) := by
  refine ⟨fun h0 h1 => ?_, rfl, fun hs h0 hlen => ?_⟩
  · simp [getBoardAtMove, h0, h1]
  · have h1 : i < (s.moveHistory.length : Int) := by omega
    simp only [getBoardAtMove]
    rw [if_pos ⟨h0, h1⟩, hlen, List.take_length, ← (reachable_inv hs).2.2.2.1]

/-- Witness for C9 at a concrete state and index. -/
theorem getBoardAtMove_spec_witness :
    ((0 : Int) ≤ 1 → (1 : Int) < ((playMoves (initState 6 7) [3, 4, 3]).moveHistory.length : Int) →
      (getBoardAtMove (playMoves (initState 6 7) [3, 4, 3]) 1).1 =
        some (replayAll 6 7 ((playMoves (initState 6 7) [3, 4, 3]).moveHistory.take
          ((1 : Int).toNat + 1)))) ∧
    (getBoardAtMove (playMoves (initState 6 7) [3, 4, 3]) 1).2 =
      playMoves (initState 6 7) [3, 4, 3] ∧
    (Reachable (playMoves (initState 6 7) [3, 4, 3]) → (0 : Int) ≤ 1 →
      (1 : Int).toNat + 1 = (playMoves (initState 6 7) [3, 4, 3]).moveHistory.length →
      (getBoardAtMove (playMoves (initState 6 7) [3, 4, 3]) 1).1 =
        some (playMoves (initState 6 7) [3, 4, 3]).board) :=
  getBoardAtMove_spec (playMoves (initState 6 7) [3, 4, 3]) 1

/-- C7 counterexample: in the spec's concrete scenario (player 1 plays
columns 0,1,2,3; player 2 plays column 6 in between) the 4th player-1 move
wins, but the reported winning line is NOT the ordered sequence
`[(5,0),(5,1),(5,2),(5,3)]` — the engine lists the placed cell first and
then scans outward, producing `[(5,3),(5,2),(5,1),(5,0)]`. -/
theorem winningLine_order_ce :
    statusOf (playMoves (initState 6 7) [0, 6, 1, 6, 2, 6, 3]) = GameStatus.won 1 ∧
    (playMoves (initState 6 7) [0, 6, 1, 6, 2, 6, 3]).winningPositions ≠
      [⟨5, 0⟩, ⟨5, 1⟩, ⟨5, 2⟩, ⟨5, 3⟩] := by
  decide

/-- C7 (amended): when an accepted move wins, the reported winning line is
the full maximal contiguous run of the mover's tokens through the placed
cell along the first axis (in the fixed order H, V, diagonal down-right,
diagonal down-left) carrying a run of at least 4 — not clipped when longer,
no earlier axis qualifying — and it is ordered with the placed cell first,
then the cells in the axis's positive direction, then those in the negative
direction; in the concrete scenario the 4th player-1 move yields
`Won(1)` with line `[(5,3),(5,2),(5,1),(5,0)]`. -/
theorem winningLine_spec (s : GameState) (c : Int) (m : MoveRec) (hs : Reachable s)
    (h : (makeMove s c).1 = some m) (hw : m.type = MoveType.win) :
    (∃ n : Nat, ∃ dr dc : Int, directions.get? n = some (dr, dc) ∧
      (∀ j : Nat, ∀ d' : Int × Int, j < n → directions.get? j = some d' →
        ¬hasRunThrough s.rows s.columns (makeMove s c).2.board m.player m.row
          m.column d'.1 d'.2) ∧
      ∃ a bk : Nat, 4 ≤ 1 + a + bk ∧
        (makeMove s c).2.winningPositions =
          ⟨m.row, m.column⟩ :: (posSeq m.row m.column dr dc a ++
            posSeq m.row m.column (-dr) (-dc) bk) ∧
        (∀ i : Nat, 1 ≤ i → i ≤ a →
          isValidCell s.rows s.columns (m.row + (i : Int) * dr)
              (m.column + (i : Int) * dc) = true ∧
            jsCell (makeMove s c).2.board (m.row + (i : Int) * dr)
              (m.column + (i : Int) * dc) = some m.player) ∧
        ¬(isValidCell s.rows s.columns (m.row + ((a + 1 : Nat) : Int) * dr)
              (m.column + ((a + 1 : Nat) : Int) * dc) = true ∧
            jsCell (makeMove s c).2.board (m.row + ((a + 1 : Nat) : Int) * dr)
              (m.column + ((a + 1 : Nat) : Int) * dc) = some m.player) ∧
        (∀ i : Nat, 1 ≤ i → i ≤ bk →
          isValidCell s.rows s.columns (m.row + (i : Int) * (-dr))
              (m.column + (i : Int) * (-dc)) = true ∧
            jsCell (makeMove s c).2.board (m.row + (i : Int) * (-dr))
              (m.column + (i : Int) * (-dc)) = some m.player) ∧
        ¬(isValidCell s.rows s.columns (m.row + ((bk + 1 : Nat) : Int) * (-dr))
              (m.column + ((bk + 1 : Nat) : Int) * (-dc)) = true ∧
            jsCell (makeMove s c).2.board (m.row + ((bk + 1 : Nat) : Int) * (-dr))
              (m.column + ((bk + 1 : Nat) : Int) * (-dc)) = some m.player)) ∧
    (statusOf (playMoves (initState 6 7) [0, 6, 1, 6, 2, 6, 3]) = GameStatus.won 1 ∧
      (playMoves (initState 6 7) [0, 6, 1, 6, 2, 6, 3]).winningPositions =
        [⟨5, 3⟩, ⟨5, 2⟩, ⟨5, 1⟩, ⟨5, 0⟩]) := by
  refine ⟨?_, by decide⟩
  obtain ⟨hr, hc, hok, hbd, hclean, hover⟩ := reachable_inv hs
  obtain ⟨hgo, hvm, ρ, hρlt, hle, hmrow, hmcol, hmpl, hbr⟩ := makeMove_elim h
  obtain ⟨hempty, hvalid, hcell⟩ := accepted_cell_facts hvm hle hρlt
  rcases hbr with ⟨ps, hcw, hty, hwpm, hmk⟩ | ⟨hcw, hfull, hty, hwpm, hmk⟩ |
      ⟨hcw, hfull, hty, hwpm, hmk⟩
  rotate_left
  · rw [hty] at hw
    exact absurd hw (by decide)
  · rw [hty] at hw
    exact absurd hw (by decide)
  · have hcw' : directions.findSome? (fun d : Int × Int => checkDirection s.rows s.columns
        (setCell s.board (ρ : Int) c (getCurrentPlayer s)) (ρ : Int) c d.1 d.2) = some ps := hcw
    obtain ⟨n, d, hdn, hdsome, hprev⟩ := findSome?_eq_some_first
      (fun d : Int × Int => checkDirection s.rows s.columns
        (setCell s.board (ρ : Int) c (getCurrentPlayer s)) (ρ : Int) c d.1 d.2)
      directions ps hcw'
    obtain ⟨hd1, hd2, hd3⟩ := direction_props hdn
    have hd1' : -d.1 = 0 ∨ -d.1 = 1 ∨ -d.1 = -1 := by rcases hd1 with h' | h' | h' <;> omega
    have hd2' : -d.2 = 0 ∨ -d.2 = 1 ∨ -d.2 = -1 := by rcases hd2 with h' | h' | h' <;> omega
    have hd3' : ¬(-d.1 = 0 ∧ -d.2 = 0) := fun hx => hd3 ⟨by omega, by omega⟩
    obtain ⟨hcount, hps⟩ := checkDirection_some_elim hdsome
    rw [hcell] at hcount hps
    rw [collectFrom_eq, collectFrom_eq] at hps
    have hfuel : 2 ≤ s.rows + s.columns := by omega
    have hstopF : runFrom s.rows s.columns (setCell s.board (ρ : Int) c (getCurrentPlayer s))
        (some (getCurrentPlayer s)) (ρ : Int) c d.1 d.2 (s.rows + s.columns) <
        s.rows + s.columns := by
      rcases Nat.eq_zero_or_pos (runFrom s.rows s.columns
          (setCell s.board (ρ : Int) c (getCurrentPlayer s))
          (some (getCurrentPlayer s)) (ρ : Int) c d.1 d.2 (s.rows + s.columns)) with ha0 | ha1
      · omega
      · have hm := runFrom_matches s.rows s.columns
          (setCell s.board (ρ : Int) c (getCurrentPlayer s)) (some (getCurrentPlayer s))
          d.1 d.2 (s.rows + s.columns) (ρ : Int) c _ ha1 (le_refl _)
        exact steps_bound hd1 hd2 hd3 hvalid hm.1
    have hstopB : runFrom s.rows s.columns (setCell s.board (ρ : Int) c (getCurrentPlayer s))
        (some (getCurrentPlayer s)) (ρ : Int) c (-d.1) (-d.2) (s.rows + s.columns) <
        s.rows + s.columns := by
      rcases Nat.eq_zero_or_pos (runFrom s.rows s.columns
          (setCell s.board (ρ : Int) c (getCurrentPlayer s))
          (some (getCurrentPlayer s)) (ρ : Int) c (-d.1) (-d.2) (s.rows + s.columns)) with ha0 | ha1
      · omega
      · have hm := runFrom_matches s.rows s.columns
          (setCell s.board (ρ : Int) c (getCurrentPlayer s)) (some (getCurrentPlayer s))
          (-d.1) (-d.2) (s.rows + s.columns) (ρ : Int) c _ ha1 (le_refl _)
        exact steps_bound hd1' hd2' hd3' hvalid hm.1
    rw [hmk]
    refine ⟨n, d.1, d.2, by rw [Prod.mk.eta]; exact hdn, ?_,
      runFrom s.rows s.columns (setCell s.board (ρ : Int) c (getCurrentPlayer s))
        (some (getCurrentPlayer s)) (ρ : Int) c d.1 d.2 (s.rows + s.columns),
      runFrom s.rows s.columns (setCell s.board (ρ : Int) c (getCurrentPlayer s))
        (some (getCurrentPlayer s)) (ρ : Int) c (-d.1) (-d.2) (s.rows + s.columns),
      hcount, ?_, ?_, ?_, ?_, ?_⟩
    · intro j d' hj hd' hrun
      rw [hmrow, hmcol, hmpl] at hrun
      obtain ⟨h1, h2, h3⟩ := direction_props hd'
      have hsome := (checkDirection_isSome_iff h1 h2 h3 hvalid hcell).mpr
        (hasWin4_iff.mpr hrun)
      rw [hprev j d' hj hd'] at hsome
      simp at hsome
    · show ps = _
      rw [hmrow, hmcol]
      exact hps
    · intro i h1 h2
      rw [hmrow, hmcol, hmpl]
      exact runFrom_matches s.rows s.columns
        (setCell s.board (ρ : Int) c (getCurrentPlayer s)) (some (getCurrentPlayer s))
        d.1 d.2 (s.rows + s.columns) (ρ : Int) c i h1 h2
    · rw [hmrow, hmcol, hmpl]
      exact runFrom_stops s.rows s.columns
        (setCell s.board (ρ : Int) c (getCurrentPlayer s)) (some (getCurrentPlayer s))
        d.1 d.2 (s.rows + s.columns) (ρ : Int) c hstopF
    · intro i h1 h2
      rw [hmrow, hmcol, hmpl]
      exact runFrom_matches s.rows s.columns
        (setCell s.board (ρ : Int) c (getCurrentPlayer s)) (some (getCurrentPlayer s))
        (-d.1) (-d.2) (s.rows + s.columns) (ρ : Int) c i h1 h2
    · rw [hmrow, hmcol, hmpl]
      exact runFrom_stops s.rows s.columns
        (setCell s.board (ρ : Int) c (getCurrentPlayer s)) (some (getCurrentPlayer s))
        (-d.1) (-d.2) (s.rows + s.columns) (ρ : Int) c hstopB

/-- Witness for C7 (amended) at the concrete winning move of the scenario. -/
theorem winningLine_spec_witness :
    ((∃ n : Nat, ∃ dr dc : Int, directions.get? n = some (dr, dc) ∧
      (∀ j : Nat, ∀ d' : Int × Int, j < n → directions.get? j = some d' →
        ¬hasRunThrough 6 7 (makeMove (playMoves (initState 6 7) [0, 6, 1, 6, 2, 6]) 3).2.board
          1 5 3 d'.1 d'.2) ∧
      ∃ a bk : Nat, 4 ≤ 1 + a + bk ∧
        (makeMove (playMoves (initState 6 7) [0, 6, 1, 6, 2, 6]) 3).2.winningPositions =
          ⟨5, 3⟩ :: (posSeq 5 3 dr dc a ++ posSeq 5 3 (-dr) (-dc) bk) ∧
        (∀ i : Nat, 1 ≤ i → i ≤ a →
          isValidCell 6 7 (5 + (i : Int) * dr) (3 + (i : Int) * dc) = true ∧
            jsCell (makeMove (playMoves (initState 6 7) [0, 6, 1, 6, 2, 6]) 3).2.board
              (5 + (i : Int) * dr) (3 + (i : Int) * dc) = some 1) ∧
        ¬(isValidCell 6 7 (5 + ((a + 1 : Nat) : Int) * dr) (3 + ((a + 1 : Nat) : Int) * dc) = true ∧
            jsCell (makeMove (playMoves (initState 6 7) [0, 6, 1, 6, 2, 6]) 3).2.board
              (5 + ((a + 1 : Nat) : Int) * dr) (3 + ((a + 1 : Nat) : Int) * dc) = some 1) ∧
        (∀ i : Nat, 1 ≤ i → i ≤ bk →
          isValidCell 6 7 (5 + (i : Int) * (-dr)) (3 + (i : Int) * (-dc)) = true ∧
            jsCell (makeMove (playMoves (initState 6 7) [0, 6, 1, 6, 2, 6]) 3).2.board
              (5 + (i : Int) * (-dr)) (3 + (i : Int) * (-dc)) = some 1) ∧
        ¬(isValidCell 6 7 (5 + ((bk + 1 : Nat) : Int) * (-dr))
              (3 + ((bk + 1 : Nat) : Int) * (-dc)) = true ∧
            jsCell (makeMove (playMoves (initState 6 7) [0, 6, 1, 6, 2, 6]) 3).2.board
              (5 + ((bk + 1 : Nat) : Int) * (-dr)) (3 + ((bk + 1 : Nat) : Int) * (-dc)) = some 1)) ∧
    (statusOf (playMoves (initState 6 7) [0, 6, 1, 6, 2, 6, 3]) = GameStatus.won 1 ∧
      (playMoves (initState 6 7) [0, 6, 1, 6, 2, 6, 3]).winningPositions =
        [⟨5, 3⟩, ⟨5, 2⟩, ⟨5, 1⟩, ⟨5, 0⟩])) :=
  winningLine_spec (playMoves (initState 6 7) [0, 6, 1, 6, 2, 6]) 3
    ⟨5, 3, 1, MoveType.win, [⟨5, 3⟩, ⟨5, 2⟩, ⟨5, 1⟩, ⟨5, 0⟩]⟩
    (reachable_playMoves [0, 6, 1, 6, 2, 6] _ (Reachable.init 6 7 (by decide) (by decide)))
    (by decide) (by decide)

end Connect4
